import Mathlib

/-!
Verification of the e-commerce ETL pipeline: a shallow embedding of
`src/pipeline/transform_data.py` (class `Transform`) and
`src/core/postgres_manager.py` / `src/db/postgres_manager.py`
(class `PostgresManager`), together with theorems about the embedded code.

Modelling conventions:
* Python scalar values are the inductive `PyVal`; dicts are association
  lists (`RecD`) with Python's insertion-order semantics for get/set/pop.
* Python floats are modelled exactly: a finite IEEE-754 double is a dyadic
  rational m * 2^e, and `roundDouble` implements round-to-nearest,
  ties-to-even, with subnormals and overflow to infinity, over exact
  integer arithmetic (no floating point is used in the model itself).
* Fallible Python code is `Except PyErr`; an uncaught exception is an
  `.error` result.  `except (ValueError, TypeError)` clauses are modelled
  by catching exactly those two error values.
* Non-ASCII corner cases of `str.lower`/`str.strip`/`float` (Unicode
  digits and whitespace) are modelled over ASCII, which covers the data
  handled by this pipeline.
-/

set_option maxRecDepth 100000

/-! ## Exact model of IEEE-754 double arithmetic -/

/-- Fuel-based floor of log2 (the fuel makes it structurally recursive and
hence reducible by the kernel; `myLog2` supplies enough fuel). -/
def log2F : Nat → Nat → Nat
  | 0, _ => 0
  | fuel+1, n => if n ≤ 1 then 0 else log2F fuel (n / 2) + 1

/-- The function `myLog2 n` is the floor of log2 n (0 for n = 0). -/
def myLog2 (n : Nat) : Nat := log2F n n

/-- A finite IEEE-754 double, represented exactly as m * 2^e. -/
structure Dyadic where
  m : Int
  e : Int
deriving DecidableEq, Repr

/-- A Python float: a finite double, an infinity, or nan. -/
inductive FloatV where
  | finite (d : Dyadic)
  | inf
  | neginf
  | nan
deriving DecidableEq, Repr

/-- An exact fraction n / d (d > 0 in all uses).  Never normalized, so all
operations are plain integer arithmetic. -/
structure QRep where
  n : Int
  d : Nat
deriving DecidableEq, Repr

/-- floor(log2 (num/den)) for num, den ≥ 1: integer-log candidate, then one
comparison to correct it. -/
def qFloorLog2 (num den : Nat) : Int :=
  let c : Int := (myLog2 num : Int) - (myLog2 den : Int)
  -- num/den < 2^c  ⟺  num * 2^max(0,-c) < den * 2^max(0,c)
  if num * 2 ^ (-c).toNat < den * 2 ^ c.toNat then c - 1 else c

/-- Round the nonnegative fraction num/den to the nearest integer, ties to
even. -/
def roundNearEven (num den : Nat) : Nat :=
  let q := num / den
  let r := num % den
  if 2 * r < den then q
  else if den < 2 * r then q + 1
  else if q % 2 = 0 then q else q + 1

/-- Round an exact rational to the nearest IEEE-754 double
(round-to-nearest, ties-to-even, subnormals, overflow to ±inf). -/
def roundDouble (x : QRep) : FloatV :=
  if x.n = 0 then .finite ⟨0, 0⟩
  else
    let an : Nat := x.n.natAbs
    let L : Int := qFloorLog2 an x.d
    let eff : Int := max (L - 52) (-1074)
    -- the value scaled by 2^(-eff), as a nonnegative fraction
    let num : Nat := an * 2 ^ (-eff).toNat
    let den : Nat := x.d * 2 ^ eff.toNat
    let m : Nat := roundNearEven num den
    if 2 ^ (1024 - eff).toNat ≤ m then (if x.n < 0 then .neginf else .inf)
    else .finite ⟨if x.n < 0 then -(m : Int) else (m : Int), eff⟩

/-- The exact value of a dyadic times 100, as a fraction. -/
def dyMul100 (d : Dyadic) : QRep :=
  if 0 ≤ d.e then ⟨d.m * 100 * 2 ^ d.e.toNat, 1⟩ else ⟨d.m * 100, 2 ^ (-d.e).toNat⟩

/-- Multiplication of a Python float by the int literal 100 (the exact
product of a finite double by 100 is rounded back to a double). -/
def mulF100 : FloatV → FloatV
  | .finite d => roundDouble (dyMul100 d)
  | .inf => .inf
  | .neginf => .neginf
  | .nan => .nan

/-- Truncation of a dyadic toward zero (Python `int()` on a finite float). -/
def dyTrunc (d : Dyadic) : Int :=
  if 0 ≤ d.e then d.m * 2 ^ d.e.toNat
  else
    let q : Nat := d.m.natAbs / 2 ^ (-d.e).toNat
    if d.m < 0 then -(q : Int) else (q : Int)

/-! ## Python strings, value rendering -/

/-- Python scalar values (plus the date/datetime objects the pipeline
creates).  `VDatetime` carries an abstract batch-capture instant. -/
inductive PyVal where
  | VNone
  | VBool (b : Bool)
  | VInt (n : Int)
  | VFloat (f : FloatV)
  | VStr (s : String)
  | VDate (y m d : Nat)
  | VDatetime (t : Nat)
deriving DecidableEq, Repr

/-- The ASCII whitespace stripped by Python's `str.strip()`. -/
def isWSChar (c : Char) : Bool :=
  c = ' ' || c = '\t' || c = '\n' || c = '\r' || c = '\x0b' || c = '\x0c'

def stripWSList (l : List Char) : List Char :=
  ((l.dropWhile isWSChar).reverse.dropWhile isWSChar).reverse

/-- Python `str.strip()` (ASCII whitespace). -/
def stripWS (s : String) : String := String.mk (stripWSList s.data)

/-- Python `str.lower()` (ASCII letters). -/
def lowerStr (s : String) : String := String.mk (s.data.map Char.toLower)

def digitVal (c : Char) : Nat := c.toNat - 48

def natOfDigits (l : List Char) : Nat := l.foldl (fun a c => a * 10 + digitVal c) 0

def digitChar (n : Nat) : Char := Char.ofNat (48 + n)

def natReprAux : Nat → Nat → List Char
  | 0, _ => []
  | fuel+1, n => if n = 0 then [] else natReprAux fuel (n / 10) ++ [digitChar (n % 10)]

/-- Decimal digits of a natural number (Python `str(int)` for n ≥ 0). -/
def natReprL (n : Nat) : List Char := if n = 0 then ['0'] else natReprAux (n + 1) n

/-- Python `str()` of an int. -/
def intReprL (i : Int) : List Char :=
  if i < 0 then '-' :: natReprL i.natAbs else natReprL i.natAbs

/-- Decimal expansion of num/den (num < den), most significant digit
first; stops when the remainder is zero or fuel runs out. -/
def fracDigitsAux : Nat → Nat → Nat → List Char
  | 0, _, _ => []
  | fuel+1, num, den =>
    if num = 0 then []
    else digitChar (num * 10 / den) :: fracDigitsAux fuel (num * 10 % den) den

/-- Decimal rendering of a finite double m * 2^e.  This is the exact
decimal expansion (doubles are dyadic, so for e ≥ -1074 it is finite and
the fuel 1200 suffices); CPython's repr prints the shortest round-tripping
decimal instead, but both renderings agree in shape: an optional minus
sign, digits, a dot, digits. -/
def dyadicReprL (dy : Dyadic) : List Char :=
  if 0 ≤ dy.e then
    intReprL (dy.m * 2 ^ dy.e.toNat) ++ ['.', '0']
  else
    let den : Nat := 2 ^ (-dy.e).toNat
    let ip : Nat := dy.m.natAbs / den
    let fr : Nat := dy.m.natAbs % den
    (if dy.m < 0 then ['-'] else []) ++ natReprL ip ++
      '.' :: (if fr = 0 then ['0'] else fracDigitsAux 1200 fr den)

def floatReprL : FloatV → List Char
  | .finite dy => dyadicReprL dy
  | .inf => ['i', 'n', 'f']
  | .neginf => ['-', 'i', 'n', 'f']
  | .nan => ['n', 'a', 'n']

/-- zero-padded decimal with at least `w` digits (for `str(date)`). -/
def padNatL (w n : Nat) : List Char :=
  let ds := natReprL n
  List.replicate (w - ds.length) '0' ++ ds

/-- Python `str()` of a scalar value.  (`VDatetime` is an abstract
batch-capture instant; it is rendered through an opaque tag since the
pipeline never stringifies it.) -/
def strPy : PyVal → String
  | .VNone => "None"
  | .VBool b => if b then "True" else "False"
  | .VInt n => String.mk (intReprL n)
  | .VFloat f => String.mk (floatReprL f)
  | .VStr s => s
  | .VDate y m d =>
    String.mk (padNatL 4 y ++ '-' :: padNatL 2 m ++ '-' :: padNatL 2 d)
  | .VDatetime t => String.mk ('t' :: 's' :: '-' :: natReprL t)

/-! ## Python `float(str)` and `int(str)` -/

/-- One run of decimal digits possibly separated by single underscores
(Python 3 numeric literals): returns the digits (underscores dropped) and
the unconsumed rest.  The first character is handled by `digitsUnd`. -/
def digitsUndAux : List Char → (List Char × List Char)
  | [] => ([], [])
  | c :: cs =>
    if c.isDigit then
      let p := digitsUndAux cs
      (c :: p.1, p.2)
    else if c = '_' then
      match cs with
      | c2 :: cs2 =>
        if c2.isDigit then
          let p := digitsUndAux cs2
          (c2 :: p.1, p.2)
        else ([], c :: cs)
      | [] => ([], [c])
    else ([], c :: cs)

/-- A digit run (with embedded underscores) that must start with a digit. -/
def digitsUnd (l : List Char) : Option (List Char × List Char) :=
  match l with
  | c :: _ => if c.isDigit then some (digitsUndAux l) else none
  | [] => none

/-- An optional leading sign; returns (isNegative, rest). -/
def parseSignList (l : List Char) : Bool × List Char :=
  match l with
  | c :: r =>
    if c = '+' then (false, r) else if c = '-' then (true, r) else (false, l)
  | [] => (false, [])

/-- The exponent tail after the `e`/`E`: optional sign then digits,
consuming the whole rest. -/
def parseExpTail (l : List Char) : Option Int :=
  let p := parseSignList l
  match digitsUnd p.2 with
  | some (ds, []) =>
    some (if p.1 then -(natOfDigits ds : Int) else (natOfDigits ds : Int))
  | _ => none

/-- The decimal-literal grammar of Python `float` after the sign:
`digits [. digits] [e digits]` or `. digits [e digits]`;
returns (integer digits, fraction digits, exponent). -/
def parseDecCore (l : List Char) : Option (List Char × List Char × Int) :=
  match digitsUnd l with
  | some (ds, rest) =>
    match rest with
    | [] => some (ds, [], 0)
    | c :: r2 =>
      if c = '.' then
        match digitsUnd r2 with
        | some (fs, r3) =>
          (match r3 with
           | [] => some (ds, fs, 0)
           | c2 :: r4 =>
             if c2 = 'e' ∨ c2 = 'E' then (parseExpTail r4).map (fun ex => (ds, fs, ex))
             else none)
        | none =>
          (match r2 with
           | [] => some (ds, [], 0)
           | c2 :: r4 =>
             if c2 = 'e' ∨ c2 = 'E' then (parseExpTail r4).map (fun ex => (ds, [], ex))
             else none)
      else if c = 'e' ∨ c = 'E' then (parseExpTail r2).map (fun ex => (ds, [], ex))
      else none
  | none =>
    match l with
    | c :: r2 =>
      if c = '.' then
        match digitsUnd r2 with
        | some (fs, r3) =>
          (match r3 with
           | [] => some ([], fs, 0)
           | c2 :: r4 =>
             if c2 = 'e' ∨ c2 = 'E' then (parseExpTail r4).map (fun ex => ([], fs, ex))
             else none)
        | none => none
      else none
    | [] => none

/-- The exact rational value of the literal `ids.fds * 10^ex` as a
fraction with a power-of-ten denominator. -/
def decValue (ids fds : List Char) (ex : Int) : QRep :=
  let t : Int := ex - (fds.length : Int)
  let n : Nat := natOfDigits (ids ++ fds)
  if 0 ≤ t then ⟨(n : Int) * 10 ^ t.toNat, 1⟩ else ⟨(n : Int), 10 ^ (-t).toNat⟩

/-- Python `float(str)`: strip whitespace, optional sign, then either a
decimal literal (converted to the nearest double) or `inf`/`infinity`/
`nan` (case-insensitive). `none` models ValueError. -/
def pyFloatOfStr (s : String) : Option FloatV :=
  let l := stripWSList s.data
  let p := parseSignList l
  match parseDecCore p.2 with
  | some (ids, fds, ex) =>
    let x := decValue ids fds ex
    some (roundDouble (if p.1 then ⟨-x.n, x.d⟩ else x))
  | none =>
    let low := p.2.map Char.toLower
    if low = ['i', 'n', 'f'] ∨ low = ['i', 'n', 'f', 'i', 'n', 'i', 't', 'y'] then
      some (if p.1 then .neginf else .inf)
    else if low = ['n', 'a', 'n'] then some .nan
    else none

/-- Python `int(str)`: strip whitespace, optional sign, digits (with
underscores), nothing else.  `none` models ValueError. -/
def pyIntOfStr (s : String) : Option Int :=
  let l := stripWSList s.data
  let p := parseSignList l
  match digitsUnd p.2 with
  | some (ds, []) =>
    some (if p.1 then -(natOfDigits ds : Int) else (natOfDigits ds : Int))
  | _ => none

/-! ## Python coercions with their exception behavior -/

inductive PyErr where
  | valueError
  | typeError
  | overflowError
deriving DecidableEq, Repr

/-- Python `float(v)` on a scalar: strings are parsed (ValueError on
failure), ints are rounded to the nearest double (OverflowError when they
exceed the double range, as in CPython), bools become 0.0/1.0, floats pass
through, everything else is a TypeError. -/
def pyFloatOfVal : PyVal → Except PyErr FloatV
  | .VStr s =>
    match pyFloatOfStr s with
    | some f => .ok f
    | none => .error .valueError
  | .VInt n =>
    match roundDouble ⟨n, 1⟩ with
    | .finite dy => .ok (.finite dy)
    | _ => .error .overflowError
  | .VFloat f => .ok f
  | .VBool b => .ok (roundDouble ⟨if b then 1 else 0, 1⟩)
  | _ => .error .typeError

/-- Python `int(f)` on a float: truncation toward zero; ValueError on nan,
OverflowError on ±inf. -/
def pyIntOfFloat : FloatV → Except PyErr Int
  | .finite dy => .ok (dyTrunc dy)
  | .nan => .error .valueError
  | _ => .error .overflowError

/-- Python `int(v)` on a scalar (used for rating and installments). -/
def pyIntOfVal : PyVal → Except PyErr Int
  | .VStr s =>
    match pyIntOfStr s with
    | some n => .ok n
    | none => .error .valueError
  | .VInt n => .ok n
  | .VFloat f => pyIntOfFloat f
  | .VBool b => .ok (if b then 1 else 0)
  | _ => .error .typeError

/-- Python `int(float(v) * 100)` — the cents conversion of
`Transform._convert_numeric_fields`. -/
def pyCents (v : PyVal) : Except PyErr Int :=
  match pyFloatOfVal v with
  | .error e => .error e
  | .ok f => pyIntOfFloat (mulF100 f)

/-! ## The regular expression of the shipping-cost extraction -/

/-- Greedy `\d*`. -/
def spanDigits : List Char → List Char × List Char
  | [] => ([], [])
  | c :: cs =>
    if c.isDigit then
      let p := spanDigits cs
      (c :: p.1, p.2)
    else ([], c :: cs)

/-- One attempt of `(\d+\.?\d*|\.\d+)` anchored at this position
(alternatives in this order, greedy), returning the matched text. -/
def matchNumAt (l : List Char) : Option (List Char) :=
  match l with
  | c :: cs =>
    if c.isDigit then
      let p := spanDigits l
      match p.2 with
      | c2 :: r2 =>
        if c2 = '.' then some (p.1 ++ '.' :: (spanDigits r2).1) else some p.1
      | [] => some p.1
    else if c = '.' then
      match cs with
      | c2 :: _ => if c2.isDigit then some ('.' :: (spanDigits cs).1) else none
      | [] => none
    else none
  | [] => none

/-- Model of `re.search(r'(\d+\.?\d*|\.\d+)', s)`: the leftmost match. -/
def reSearchNum : List Char → Option (List Char)
  | [] => none
  | c :: cs =>
    match matchNumAt (c :: cs) with
    | some m => some m
    | none => reSearchNum cs

/-! ## `datetime.strptime(s, '%d/%m/%Y').date()` -/

/-- Day candidates per strptime's `%d` regex `(3[01]|[12]\d|0[1-9]|[1-9])`,
in alternation order (for backtracking). -/
def dayCands (l : List Char) : List (Nat × List Char) :=
  match l with
  | c1 :: c2 :: r =>
    (if c1 = '3' ∧ (c2 = '0' ∨ c2 = '1') then [(natOfDigits [c1, c2], r)] else []) ++
    (if (c1 = '1' ∨ c1 = '2') ∧ c2.isDigit then [(natOfDigits [c1, c2], r)] else []) ++
    (if c1 = '0' ∧ c2.isDigit ∧ c2 ≠ '0' then [(natOfDigits [c1, c2], r)] else []) ++
    (if c1.isDigit ∧ c1 ≠ '0' then [(digitVal c1, c2 :: r)] else [])
  | [c1] => if c1.isDigit ∧ c1 ≠ '0' then [(digitVal c1, [])] else []
  | [] => []

/-- Month candidates per `%m` regex `(1[0-2]|0[1-9]|[1-9])`. -/
def monthCands (l : List Char) : List (Nat × List Char) :=
  match l with
  | c1 :: c2 :: r =>
    (if c1 = '1' ∧ (c2 = '0' ∨ c2 = '1' ∨ c2 = '2') then [(natOfDigits [c1, c2], r)] else []) ++
    (if c1 = '0' ∧ c2.isDigit ∧ c2 ≠ '0' then [(natOfDigits [c1, c2], r)] else []) ++
    (if c1.isDigit ∧ c1 ≠ '0' then [(digitVal c1, c2 :: r)] else [])
  | [c1] => if c1.isDigit ∧ c1 ≠ '0' then [(digitVal c1, [])] else []
  | [] => []

/-- Year `%Y`: exactly four digits. -/
def year4 (l : List Char) : Option (Nat × List Char) :=
  match l with
  | a :: b :: c :: d :: r =>
    if a.isDigit ∧ b.isDigit ∧ c.isDigit ∧ d.isDigit then
      some (natOfDigits [a, b, c, d], r)
    else none
  | _ => none

/-- The syntactic match of `%d/%m/%Y` against the whole string
(backtracking over the alternation candidates); returns (day, month, year). -/
def matchDMY (l : List Char) : Option (Nat × Nat × Nat) :=
  (dayCands l).findSome? (fun dc =>
    match dc.2 with
    | c :: r1 =>
      if c = '/' then
        (monthCands r1).findSome? (fun mc =>
          match mc.2 with
          | c2 :: r2 =>
            if c2 = '/' then
              match year4 r2 with
              | some (y, []) => some (dc.1, mc.1, y)
              | _ => none
            else none
          | [] => none)
      else none
    | [] => none)

def isLeap (y : Nat) : Bool := y % 4 = 0 && (y % 100 ≠ 0 || y % 400 = 0)

def daysInMonth (y m : Nat) : Nat :=
  if m = 2 then (if isLeap y then 29 else 28)
  else if m = 4 ∨ m = 6 ∨ m = 9 ∨ m = 11 then 30 else 31

/-- Model of `datetime.strptime(s, '%d/%m/%Y').date()`: syntactic match, then the
`datetime` constructor's validity check (year ≥ 1, day within month).
`none` models ValueError.  Returns (year, month, day). -/
def parseDateDMY (s : String) : Option (Nat × Nat × Nat) :=
  match matchDMY s.data with
  | some (d, m, y) =>
    if 1 ≤ y ∧ d ≤ daysInMonth y m then some (y, m, d) else none
  | none => none

/-! ## Python dicts as insertion-ordered association lists -/

/-- A Python dict with string keys (insertion-ordered, no duplicate keys
in any dict the code constructs). -/
abbrev RecD := List (String × PyVal)

/-- Lookup `d.get(k)` / `d[k]`. -/
def rget : RecD → String → Option PyVal
  | [], _ => none
  | kv :: r, key => if kv.1 = key then some kv.2 else rget r key

/-- Assignment `d[k] = v`: update in place if present, else append (dict insertion
order). -/
def rset : RecD → String → PyVal → RecD
  | [], key, v => [(key, v)]
  | kv :: r, key, v => if kv.1 = key then (kv.1, v) :: r else kv :: rset r key v

/-- Removal `d.pop(k, None)`: the value (if present) and the remaining dict. -/
def rpop : RecD → String → Option PyVal × RecD
  | [], _ => (none, [])
  | kv :: r, key =>
    if kv.1 = key then (some kv.2, r)
    else
      let p := rpop r key
      (p.1, kv :: p.2)

/-- The key list of a dict. -/
def recKeys (r : RecD) : List String := r.map Prod.fst

/-! ## The transformation pipeline (`Transform` in transform_data.py) -/

/-- The field-rename table of `_rename_and_select_fields`. -/
def fieldMap : List (String × String) :=
  [("Produto", "product_name"),
   ("Categoria do Produto", "category_name"),
   ("Preço", "price_original_str"),
   ("Frete", "shipping_cost_original_str"),
   ("Data da Compra", "purchase_date_str"),
   ("Vendedor", "seller_name"),
   ("Local da compra", "purchase_location_code"),
   ("Avaliação da compra", "purchase_rating_original"),
   ("Tipo de pagamento", "payment_type"),
   ("Quantidade de parcelas", "installments_quantity_original"),
   ("lat", "latitude_original"),
   ("lon", "longitude_original")]

/-- The `product_id` of one raw record: None when the source `id` is
absent, None, or the empty string; otherwise `str(raw id)`. -/
def pidOf (raw : RecD) : PyVal :=
  match rget raw "id" with
  | none => .VNone
  | some .VNone => .VNone
  | some (.VStr s) => if s = "" then .VNone else .VStr s
  | some v => .VStr (strPy v)

/-- Model of `_rename_and_select_fields` on one record: a fresh dict with
`product_id` first, then the twelve renamed fields (absent source fields
become None). -/
def renameOne (raw : RecD) : RecD :=
  ("product_id", pidOf raw) ::
    fieldMap.map (fun kv => (kv.2, (rget raw kv.1).getD .VNone))

def textFields : List String :=
  ["product_name", "category_name", "seller_name", "purchase_location_code", "payment_type"]

/-- One step of `_normalize_text_fields`:
`if field in product and product[field] is not None:
   product[field] = str(product[field]).lower().strip()`
(`str` is total on scalars, so its try/except never fires). -/
def normTextField (r : RecD) (k : String) : RecD :=
  match rget r k with
  | some v => if v = .VNone then r else rset r k (.VStr (stripWS (lowerStr (strPy v))))
  | none => r

def normalizeTextOne (r : RecD) : RecD := textFields.foldl normTextField r

/-- Pop an intermediate field, convert it, store the result under the
target key; a converter error is an uncaught exception. -/
def popConv (src tgt : String) (f : Option PyVal → Except PyErr PyVal) (r : RecD) :
    Except PyErr RecD :=
  let p := rpop r src
  match f p.1 with
  | .ok w => .ok (rset p.2 tgt w)
  | .error e => .error e

/-- The clause `except (ValueError, TypeError): ... = None` around an int-producing
conversion; any other exception (OverflowError) propagates. -/
def catchVT (res : Except PyErr Int) : Except PyErr PyVal :=
  match res with
  | .ok n => .ok (.VInt n)
  | .error .valueError => .ok .VNone
  | .error .typeError => .ok .VNone
  | .error e => .error e

/-- Same catch pattern around a float-producing conversion. -/
def catchVTF (res : Except PyErr FloatV) : Except PyErr PyVal :=
  match res with
  | .ok f => .ok (.VFloat f)
  | .error .valueError => .ok .VNone
  | .error .typeError => .ok .VNone
  | .error e => .error e

/-- Price branch: `int(float(price_original) * 100)` with
`except (ValueError, TypeError)`; None (or absent) stays None. -/
def priceConv : Option PyVal → Except PyErr PyVal
  | none => .ok .VNone
  | some .VNone => .ok .VNone
  | some v => catchVT (pyCents v)

/-- Shipping branch: `str(...)`, then the first `(\d+\.?\d*|\.\d+)` match,
then `int(float(match) * 100)`; no match or a caught exception → None. -/
def shipConv : Option PyVal → Except PyErr PyVal
  | none => .ok .VNone
  | some .VNone => .ok .VNone
  | some v =>
    match reSearchNum (strPy v).data with
    | some ds => catchVT (pyCents (.VStr (String.mk ds)))
    | none => .ok .VNone

/-- Rating / installments branch: `int(original)` with the same catch. -/
def intConv : Option PyVal → Except PyErr PyVal
  | none => .ok .VNone
  | some .VNone => .ok .VNone
  | some v => catchVT (pyIntOfVal v)

/-- Latitude / longitude branch: `float(original)` with the same catch. -/
def geoConv : Option PyVal → Except PyErr PyVal
  | none => .ok .VNone
  | some .VNone => .ok .VNone
  | some v => catchVTF (pyFloatOfVal v)

/-- Model of `_convert_numeric_fields` on one record: the six pop/convert/store
steps, in source order. -/
def convertNumericOne (r : RecD) : Except PyErr RecD :=
  match popConv "price_original_str" "price_cents" priceConv r with
  | .error e => .error e
  | .ok r1 =>
  match popConv "shipping_cost_original_str" "shipping_cost_cents" shipConv r1 with
  | .error e => .error e
  | .ok r2 =>
  match popConv "purchase_rating_original" "purchase_rating" intConv r2 with
  | .error e => .error e
  | .ok r3 =>
  match popConv "installments_quantity_original" "installments_quantity" intConv r3 with
  | .error e => .error e
  | .ok r4 =>
  match popConv "latitude_original" "latitude" geoConv r4 with
  | .error e => .error e
  | .ok r5 => popConv "longitude_original" "longitude" geoConv r5

/-- Model of the `_convert_dates` branch for the popped value:
`if v is not None and isinstance(v, str) and v.strip(): strptime ...`
(a strptime ValueError is caught and yields None). -/
def dateConv : Option PyVal → PyVal
  | some (.VStr s) =>
    if stripWS s = "" then .VNone
    else
      match parseDateDMY s with
      | some ymd => .VDate ymd.1 ymd.2.1 ymd.2.2
      | none => .VNone
  | _ => .VNone

def convertDatesOne (r : RecD) : RecD :=
  let p := rpop r "purchase_date_str"
  rset p.2 "purchase_date" (dateConv p.1)

/-- The `final_schema_defaults` table of
`_ensure_final_structure_and_defaults`, in source order. -/
def finalSchemaDefaults : List (String × PyVal) :=
  [("product_id", .VNone),
   ("product_name", .VStr "nome indisponível"),
   ("category_name", .VStr "outros"),
   ("price_cents", .VNone),
   ("shipping_cost_cents", .VNone),
   ("purchase_date", .VNone),
   ("seller_name", .VStr "vendedor desconhecido"),
   ("purchase_location_code", .VStr "n/a"),
   ("purchase_rating", .VNone),
   ("payment_type", .VStr "não especificado"),
   ("installments_quantity", .VNone),
   ("latitude", .VNone),
   ("longitude", .VNone),
   ("etl_load_timestamp", .VNone)]

/-- One step `if product.get(field) is None: product[field] = default_value`. -/
def applyDefault (r : RecD) (kv : String × PyVal) : RecD :=
  match rget r kv.1 with
  | none => rset r kv.1 kv.2
  | some .VNone => rset r kv.1 kv.2
  | some _ => r

def ensureDefaultsOne (r : RecD) : RecD := finalSchemaDefaults.foldl applyDefault r

/-- Model of `_add_etl_metadata` on one record: the batch-wide timestamp. -/
def addEtlOne (now : Nat) (r : RecD) : RecD :=
  rset r "etl_load_timestamp" (.VDatetime now)

/-- The whole per-record normalization (the pipeline of `transform_data`
restricted to one record). -/
def normalizeRecord (now : Nat) (raw : RecD) : Except PyErr RecD :=
  match convertNumericOne (normalizeTextOne (renameOne raw)) with
  | .error e => .error e
  | .ok r => .ok (addEtlOne now (ensureDefaultsOne (convertDatesOne r)))

/-- A per-record loop over a batch: the first uncaught exception aborts
the whole call (Python for-loop semantics). -/
def mapE {α β : Type} (f : α → Except PyErr β) : List α → Except PyErr (List β)
  | [] => .ok []
  | a :: l =>
    match f a with
    | .error e => .error e
    | .ok b =>
      match mapE f l with
      | .error e => .error e
      | .ok bs => .ok (b :: bs)

/-- Model of `Transform.transform_data`: empty input returns [] at once; otherwise
the staged per-record passes run in source order.  (The deep copy of the
input is the identity in this pure model; its shallow-copy fallback is
unreachable here.) -/
def transform_data (now : Nat) (raws : List RecD) : Except PyErr (List RecD) :=
  if raws.isEmpty then .ok []
  else
    match mapE convertNumericOne ((raws.map renameOne).map normalizeTextOne) with
    | .error e => .error e
    | .ok l3 =>
      .ok (((l3.map convertDatesOne).map ensureDefaultsOne).map (addEtlOne now))

/-! ## `PostgresManager` transactional exit and staging load -/

/-- Which database primitives fail in a given run (all failures are
psycopg2 errors, the class `__exit__` catches). -/
structure ConnBehavior where
  commitFails : Bool
  rollbackFails : Bool
  finalRollbackFails : Bool
deriving DecidableEq, Repr

inductive DbAct where
  | commit
  | rollback
  | rollbackFinal
  | closeCursor
  | closeConn
deriving DecidableEq, Repr

/-- Model of `PostgresManager.__exit__` (identical discipline in
src/core/postgres_manager.py and src/db/postgres_manager.py): commit when
no exception is pending, rollback when one is; a psycopg2 error from
commit/rollback triggers one best-effort final rollback whose own failure
is swallowed; `finally: self.disconnect()` closes cursor then connection;
the return value False never suppresses the body's exception.  The result
is (the trace of attempted actions paired with their success, the
suppress flag).  `connOpen = false` is the branch where the connection
was never established or already closed. -/
def pgExit (connOpen excPending : Bool) (beh : ConnBehavior) :
    List (DbAct × Bool) × Bool :=
  if connOpen = false then ([], false)
  else
    let firstAct : DbAct × Bool :=
      if excPending then (.rollback, !beh.rollbackFails) else (.commit, !beh.commitFails)
    let firstFailed : Bool := if excPending then beh.rollbackFails else beh.commitFails
    let recovery : List (DbAct × Bool) :=
      if firstFailed then [(.rollbackFinal, !beh.finalRollbackFails)] else []
    (firstAct :: recovery ++ [(.closeCursor, true), (.closeConn, true)], false)

/-- What a `load_data_to_staging` call does. -/
inductive LoadOutcome where
  | notConnected
  | noop
  | inserted (table : String) (cols : List String) (rows : List (List PyVal))
deriving DecidableEq, Repr

/-- One positional tuple: `tuple(item.get(col) for col in column_order)`
(a missing key contributes None). -/
def rowOf (cols : List String) (item : RecD) : List PyVal :=
  cols.map (fun c => (rget item c).getD .VNone)

/-- Model of `PostgresManager.load_data_to_staging`: guard on connection, empty
batch is a successful no-op issuing no insert, otherwise one
execute_values insert of all positional tuples. -/
def load_data_to_staging (connected : Bool) (table : String) (data : List RecD)
    (cols : List String) : LoadOutcome :=
  if connected = false then .notConnected
  else if data.isEmpty then .noop
  else .inserted table cols (data.map (rowOf cols))

/-! ## Specification-side definitions (for stating the claims) -/

/-- The fourteen canonical keys, in the spec's order. -/
def canonicalKeys : List String :=
  ["product_id", "product_name", "category_name", "price_cents",
   "shipping_cost_cents", "purchase_date", "seller_name",
   "purchase_location_code", "purchase_rating", "payment_type",
   "installments_quantity", "latitude", "longitude", "etl_load_timestamp"]

/-- The key order the pipeline actually produces (a permutation of
`canonicalKeys`). -/
def finalKeyOrder : List String :=
  ["product_id", "product_name", "category_name", "seller_name",
   "purchase_location_code", "payment_type", "price_cents",
   "shipping_cost_cents", "purchase_rating", "installments_quantity",
   "latitude", "longitude", "purchase_date", "etl_load_timestamp"]

/-- Truncation toward zero of a / b for b > 0. -/
def tdivPos (a : Int) (b : Nat) : Int :=
  if 0 ≤ a then ((a.toNat / b : Nat) : Int) else -((a.natAbs / b : Nat) : Int)

/-- Spec-side reading of "a string that parses as a decimal number": the
exact rational value of the decimal literal, as numerator and (positive,
power-of-ten) denominator.  Built from the same grammar the code's
`float()` consumes, but with no rounding to a double. -/
def parseDecimalExact (s : String) : Option (Int × Nat) :=
  let l := stripWSList s.data
  let p := parseSignList l
  match parseDecCore p.2 with
  | some (ids, fds, ex) =>
    let x := decValue ids fds ex
    some (if p.1 then -x.n else x.n, x.d)
  | none => none

/-- Spec-side formula of claim C1: the major-currency value multiplied by
100 and truncated toward zero. -/
def specCentsTrunc (nd : Int × Nat) : Int := tdivPos (nd.1 * 100) nd.2

/-! ## Lemmas about the dict operations -/

theorem rget_rset_self (r : RecD) (k : String) (v : PyVal) :
    rget (rset r k v) k = some v := by
  induction r with
  | nil => simp [rget, rset]
  | cons kv r ih =>
    by_cases h : kv.1 = k <;> simp [rget, rset, h, ih]

theorem rget_rset_ne (r : RecD) (k k2 : String) (v : PyVal) (h : k ≠ k2) :
    rget (rset r k v) k2 = rget r k2 := by
  induction r with
  | nil => simp [rget, rset, h]
  | cons kv r ih =>
    by_cases h1 : kv.1 = k <;> by_cases h2 : kv.1 = k2 <;>
      simp_all [rget, rset]

theorem rpop_fst (r : RecD) (k : String) : (rpop r k).1 = rget r k := by
  induction r with
  | nil => simp [rget, rpop]
  | cons kv r ih =>
    by_cases h : kv.1 = k <;> simp [rget, rpop, h, ih]

theorem rget_rpop_ne (r : RecD) (k k2 : String) (h : k ≠ k2) :
    rget (rpop r k).2 k2 = rget r k2 := by
  induction r with
  | nil => simp [rget, rpop]
  | cons kv r ih =>
    by_cases h1 : kv.1 = k <;> by_cases h2 : kv.1 = k2 <;>
      simp_all [rget, rpop]

theorem recKeys_nil : recKeys [] = [] := rfl

theorem recKeys_cons (kv : String × PyVal) (r : RecD) :
    recKeys (kv :: r) = kv.1 :: recKeys r := rfl

theorem rget_mem (r : RecD) (k : String) (v : PyVal) (h : rget r k = some v) :
    k ∈ recKeys r := by
  induction r with
  | nil => simp [rget] at h
  | cons kv r ih =>
    rw [recKeys_cons]
    by_cases h1 : kv.1 = k
    · exact h1 ▸ List.mem_cons_self _ _
    · simp only [rget, h1, if_false, if_neg h1] at h
      exact List.mem_cons_of_mem _ (ih h)

theorem rget_none (r : RecD) (k : String) (h : rget r k = none) :
    k ∉ recKeys r := by
  induction r with
  | nil => simp [recKeys_nil]
  | cons kv r ih =>
    rw [recKeys_cons]
    by_cases h1 : kv.1 = k
    · simp [rget, h1] at h
    · simp only [rget, if_neg h1] at h
      rw [List.mem_cons]
      rintro (rfl | hk)
      · exact h1 rfl
      · exact ih h hk

theorem recKeys_rset (r : RecD) (k : String) (v : PyVal) :
    recKeys (rset r k v) = if k ∈ recKeys r then recKeys r else recKeys r ++ [k] := by
  induction r with
  | nil => simp [recKeys_nil, rset, recKeys_cons]
  | cons kv r ih =>
    by_cases h : kv.1 = k
    · subst h
      simp [rset, recKeys_cons, List.mem_cons]
    · have hne : ¬ (k = kv.1) := fun hk => h hk.symm
      simp only [rset, if_neg h, recKeys_cons, ih, List.mem_cons, hne, false_or]
      by_cases h2 : k ∈ recKeys r <;> simp [h2]

theorem recKeys_rpop (r : RecD) (k : String) :
    recKeys (rpop r k).2 = (recKeys r).erase k := by
  induction r with
  | nil => simp [recKeys_nil, rpop]
  | cons kv r ih =>
    by_cases h : kv.1 = k
    · subst h
      simp [rpop, recKeys_cons, List.erase_cons_head]
    · have hbeq : ¬ (kv.1 == k) := by simp [h]
      rw [rpop]
      simp only [if_neg h]
      rw [recKeys_cons, recKeys_cons, List.erase_cons]
      simp only [hbeq, if_false, ih]
      simp

/-! ## Lemmas about the pipeline stages -/

theorem popConv_ok (src tgt : String) (f : Option PyVal → Except PyErr PyVal)
    (r r2 : RecD) (h : popConv src tgt f r = .ok r2) :
    ∃ w, f (rget r src) = .ok w ∧ r2 = rset (rpop r src).2 tgt w := by
  simp only [popConv, rpop_fst] at h
  cases hf : f (rget r src) with
  | error e => rw [hf] at h; exact absurd h (by simp)
  | ok w =>
    rw [hf] at h
    simp at h
    exact ⟨w, rfl, h.symm⟩

theorem popConv_rget_ne (src tgt : String) (f : Option PyVal → Except PyErr PyVal)
    (r r2 : RecD) (k : String) (h : popConv src tgt f r = .ok r2)
    (hs : src ≠ k) (ht : tgt ≠ k) : rget r2 k = rget r k := by
  obtain ⟨w, _, rfl⟩ := popConv_ok src tgt f r r2 h
  rw [rget_rset_ne _ _ _ _ ht, rget_rpop_ne _ _ _ hs]

theorem popConv_rget_tgt (src tgt : String) (f : Option PyVal → Except PyErr PyVal)
    (r r2 : RecD) (h : popConv src tgt f r = .ok r2) :
    ∃ w, f (rget r src) = .ok w ∧ rget r2 tgt = some w := by
  obtain ⟨w, hw, rfl⟩ := popConv_ok src tgt f r r2 h
  exact ⟨w, hw, rget_rset_self _ _ _⟩

theorem popConv_keys (src tgt : String) (f : Option PyVal → Except PyErr PyVal)
    (r r2 : RecD) (h : popConv src tgt f r = .ok r2) :
    recKeys r2 = if tgt ∈ (recKeys r).erase src then (recKeys r).erase src
                 else (recKeys r).erase src ++ [tgt] := by
  obtain ⟨w, _, rfl⟩ := popConv_ok src tgt f r r2 h
  rw [recKeys_rset, recKeys_rpop]

theorem normTextField_keys (r : RecD) (k : String) :
    recKeys (normTextField r k) = recKeys r := by
  unfold normTextField
  cases hv : rget r k with
  | none => rfl
  | some v =>
    by_cases h : v = .VNone
    · simp [h]
    · simp only [h, if_false]
      rw [recKeys_rset, if_pos (rget_mem r k v hv)]

theorem normalizeTextOne_keys (r : RecD) :
    recKeys (normalizeTextOne r) = recKeys r := by
  unfold normalizeTextOne textFields
  simp only [List.foldl]
  rw [normTextField_keys, normTextField_keys, normTextField_keys,
    normTextField_keys, normTextField_keys]

theorem normTextField_rget_ne (r : RecD) (k k2 : String) (h : k ≠ k2) :
    rget (normTextField r k) k2 = rget r k2 := by
  unfold normTextField
  cases hv : rget r k with
  | none => rfl
  | some v =>
    by_cases hn : v = .VNone
    · simp [hn]
    · simp only [hn, if_false]
      exact rget_rset_ne _ _ _ _ h

theorem normalizeTextOne_rget_ne (r : RecD) (k : String) (h : k ∉ textFields) :
    rget (normalizeTextOne r) k = rget r k := by
  unfold textFields at h
  simp only [List.mem_cons, List.not_mem_nil, or_false] at h
  push_neg at h
  obtain ⟨h1, h2, h3, h4, h5⟩ := h
  unfold normalizeTextOne textFields
  simp only [List.foldl]
  rw [normTextField_rget_ne _ _ _ (fun hh => h5 hh.symm),
    normTextField_rget_ne _ _ _ (fun hh => h4 hh.symm),
    normTextField_rget_ne _ _ _ (fun hh => h3 hh.symm),
    normTextField_rget_ne _ _ _ (fun hh => h2 hh.symm),
    normTextField_rget_ne _ _ _ (fun hh => h1 hh.symm)]

/-- The intermediate keys consumed and the canonical keys produced by
`_convert_numeric_fields`. -/
def numericKeys : List String :=
  ["price_original_str", "shipping_cost_original_str", "purchase_rating_original",
   "installments_quantity_original", "latitude_original", "longitude_original",
   "price_cents", "shipping_cost_cents", "purchase_rating",
   "installments_quantity", "latitude", "longitude"]

theorem convertNumeric_spec (r r6 : RecD) (h : convertNumericOne r = .ok r6) :
    (∃ w, priceConv (rget r "price_original_str") = .ok w ∧
      rget r6 "price_cents" = some w) ∧
    (∃ w, shipConv (rget r "shipping_cost_original_str") = .ok w ∧
      rget r6 "shipping_cost_cents" = some w) ∧
    (∃ w, intConv (rget r "purchase_rating_original") = .ok w ∧
      rget r6 "purchase_rating" = some w) ∧
    (∃ w, intConv (rget r "installments_quantity_original") = .ok w ∧
      rget r6 "installments_quantity" = some w) ∧
    (∃ w, geoConv (rget r "latitude_original") = .ok w ∧
      rget r6 "latitude" = some w) ∧
    (∃ w, geoConv (rget r "longitude_original") = .ok w ∧
      rget r6 "longitude" = some w) ∧
    (∀ k, k ∉ numericKeys → rget r6 k = rget r k) := by
  unfold convertNumericOne at h
  cases h1 : popConv "price_original_str" "price_cents" priceConv r with
  | error e => rw [h1] at h; simp at h
  | ok r1 =>
  rw [h1] at h
  dsimp only at h
  cases h2 : popConv "shipping_cost_original_str" "shipping_cost_cents" shipConv r1 with
  | error e => rw [h2] at h; simp at h
  | ok r2 =>
  rw [h2] at h
  dsimp only at h
  cases h3 : popConv "purchase_rating_original" "purchase_rating" intConv r2 with
  | error e => rw [h3] at h; simp at h
  | ok r3 =>
  rw [h3] at h
  dsimp only at h
  cases h4 : popConv "installments_quantity_original" "installments_quantity" intConv r3 with
  | error e => rw [h4] at h; simp at h
  | ok r4 =>
  rw [h4] at h
  dsimp only at h
  cases h5 : popConv "latitude_original" "latitude" geoConv r4 with
  | error e => rw [h5] at h; simp at h
  | ok r5 =>
  rw [h5] at h
  dsimp only at h
  have h6 : popConv "longitude_original" "longitude" geoConv r5 = .ok r6 := h
  refine ⟨?_, ?_, ?_, ?_, ?_, ?_, ?_⟩
  · obtain ⟨w, hw, hg⟩ := popConv_rget_tgt _ _ _ _ _ h1
    refine ⟨w, hw, ?_⟩
    rw [popConv_rget_ne _ _ _ _ _ _ h6 (by decide) (by decide),
      popConv_rget_ne _ _ _ _ _ _ h5 (by decide) (by decide),
      popConv_rget_ne _ _ _ _ _ _ h4 (by decide) (by decide),
      popConv_rget_ne _ _ _ _ _ _ h3 (by decide) (by decide),
      popConv_rget_ne _ _ _ _ _ _ h2 (by decide) (by decide)]
    exact hg
  · obtain ⟨w, hw, hg⟩ := popConv_rget_tgt _ _ _ _ _ h2
    rw [popConv_rget_ne _ _ _ _ _ _ h1 (by decide) (by decide)] at hw
    refine ⟨w, hw, ?_⟩
    rw [popConv_rget_ne _ _ _ _ _ _ h6 (by decide) (by decide),
      popConv_rget_ne _ _ _ _ _ _ h5 (by decide) (by decide),
      popConv_rget_ne _ _ _ _ _ _ h4 (by decide) (by decide),
      popConv_rget_ne _ _ _ _ _ _ h3 (by decide) (by decide)]
    exact hg
  · obtain ⟨w, hw, hg⟩ := popConv_rget_tgt _ _ _ _ _ h3
    rw [popConv_rget_ne _ _ _ _ _ _ h2 (by decide) (by decide),
      popConv_rget_ne _ _ _ _ _ _ h1 (by decide) (by decide)] at hw
    refine ⟨w, hw, ?_⟩
    rw [popConv_rget_ne _ _ _ _ _ _ h6 (by decide) (by decide),
      popConv_rget_ne _ _ _ _ _ _ h5 (by decide) (by decide),
      popConv_rget_ne _ _ _ _ _ _ h4 (by decide) (by decide)]
    exact hg
  · obtain ⟨w, hw, hg⟩ := popConv_rget_tgt _ _ _ _ _ h4
    rw [popConv_rget_ne _ _ _ _ _ _ h3 (by decide) (by decide),
      popConv_rget_ne _ _ _ _ _ _ h2 (by decide) (by decide),
      popConv_rget_ne _ _ _ _ _ _ h1 (by decide) (by decide)] at hw
    refine ⟨w, hw, ?_⟩
    rw [popConv_rget_ne _ _ _ _ _ _ h6 (by decide) (by decide),
      popConv_rget_ne _ _ _ _ _ _ h5 (by decide) (by decide)]
    exact hg
  · obtain ⟨w, hw, hg⟩ := popConv_rget_tgt _ _ _ _ _ h5
    rw [popConv_rget_ne _ _ _ _ _ _ h4 (by decide) (by decide),
      popConv_rget_ne _ _ _ _ _ _ h3 (by decide) (by decide),
      popConv_rget_ne _ _ _ _ _ _ h2 (by decide) (by decide),
      popConv_rget_ne _ _ _ _ _ _ h1 (by decide) (by decide)] at hw
    refine ⟨w, hw, ?_⟩
    rw [popConv_rget_ne _ _ _ _ _ _ h6 (by decide) (by decide)]
    exact hg
  · obtain ⟨w, hw, hg⟩ := popConv_rget_tgt _ _ _ _ _ h6
    rw [popConv_rget_ne _ _ _ _ _ _ h5 (by decide) (by decide),
      popConv_rget_ne _ _ _ _ _ _ h4 (by decide) (by decide),
      popConv_rget_ne _ _ _ _ _ _ h3 (by decide) (by decide),
      popConv_rget_ne _ _ _ _ _ _ h2 (by decide) (by decide),
      popConv_rget_ne _ _ _ _ _ _ h1 (by decide) (by decide)] at hw
    exact ⟨w, hw, hg⟩
  · intro k hk
    unfold numericKeys at hk
    simp only [List.mem_cons, List.not_mem_nil, or_false] at hk
    push_neg at hk
    obtain ⟨n1, n2, n3, n4, n5, n6, n7, n8, n9, n10, n11, n12⟩ := hk
    rw [popConv_rget_ne _ _ _ _ _ _ h6 (fun hh => n6 hh.symm) (fun hh => n12 hh.symm),
      popConv_rget_ne _ _ _ _ _ _ h5 (fun hh => n5 hh.symm) (fun hh => n11 hh.symm),
      popConv_rget_ne _ _ _ _ _ _ h4 (fun hh => n4 hh.symm) (fun hh => n10 hh.symm),
      popConv_rget_ne _ _ _ _ _ _ h3 (fun hh => n3 hh.symm) (fun hh => n9 hh.symm),
      popConv_rget_ne _ _ _ _ _ _ h2 (fun hh => n2 hh.symm) (fun hh => n8 hh.symm),
      popConv_rget_ne _ _ _ _ _ _ h1 (fun hh => n1 hh.symm) (fun hh => n7 hh.symm)]

theorem convertDates_rget_tgt (r : RecD) :
    rget (convertDatesOne r) "purchase_date" = some (dateConv (rget r "purchase_date_str")) := by
  simp only [convertDatesOne]
  rw [rpop_fst, rget_rset_self]

theorem convertDates_rget_ne (r : RecD) (k : String)
    (hs : "purchase_date_str" ≠ k) (ht : "purchase_date" ≠ k) :
    rget (convertDatesOne r) k = rget r k := by
  simp only [convertDatesOne]
  rw [rget_rset_ne _ _ _ _ ht, rget_rpop_ne _ _ _ hs]

theorem convertDates_keys (r : RecD) :
    recKeys (convertDatesOne r) =
      if "purchase_date" ∈ (recKeys r).erase "purchase_date_str" then
        (recKeys r).erase "purchase_date_str"
      else (recKeys r).erase "purchase_date_str" ++ ["purchase_date"] := by
  simp only [convertDatesOne]
  rw [recKeys_rset, recKeys_rpop]

theorem applyDefault_keys (r : RecD) (kv : String × PyVal) :
    recKeys (applyDefault r kv) =
      if kv.1 ∈ recKeys r then recKeys r else recKeys r ++ [kv.1] := by
  unfold applyDefault
  cases hv : rget r kv.1 with
  | none =>
    rw [recKeys_rset, if_neg (rget_none _ _ hv)]
  | some v =>
    have hm := rget_mem _ _ _ hv
    cases v <;> simp only [recKeys_rset, if_pos hm]

theorem applyDefault_rget_ne (r : RecD) (kv : String × PyVal) (k : String)
    (h : kv.1 ≠ k) : rget (applyDefault r kv) k = rget r k := by
  unfold applyDefault
  cases hv : rget r kv.1 with
  | none => exact rget_rset_ne _ _ _ _ h
  | some v => cases v <;> simp only [rget_rset_ne _ _ _ _ h]

theorem applyDefault_rget_keep (r : RecD) (kv : String × PyVal) (k : String)
    (v : PyVal) (h : rget r k = some v) (hv : v ≠ .VNone) :
    rget (applyDefault r kv) k = some v := by
  by_cases he : kv.1 = k
  · unfold applyDefault
    rw [he, h]
    cases v with
    | VNone => exact absurd rfl hv
    | VBool b => exact h
    | VInt n => exact h
    | VFloat f => exact h
    | VStr s => exact h
    | VDate y m d => exact h
    | VDatetime t => exact h
  · rw [applyDefault_rget_ne _ _ _ he, h]

theorem foldDefaults_keep (L : List (String × PyVal)) (r : RecD) (k : String)
    (v : PyVal) (h : rget r k = some v) (hv : v ≠ .VNone) :
    rget (L.foldl applyDefault r) k = some v := by
  induction L generalizing r with
  | nil => exact h
  | cons kv L ih =>
    exact ih (applyDefault r kv) (applyDefault_rget_keep r kv k v h hv)

theorem foldDefaults_null (L : List (String × PyVal)) (r : RecD) (k : String)
    (h : rget r k = some .VNone) (hL : ∀ kv ∈ L, kv.1 = k → kv.2 = .VNone) :
    rget (L.foldl applyDefault r) k = some .VNone := by
  induction L generalizing r with
  | nil => exact h
  | cons kv L ih =>
    have hstep : rget (applyDefault r kv) k = some .VNone := by
      by_cases he : kv.1 = k
      · have h2 := hL kv (List.mem_cons_self _ _) he
        unfold applyDefault
        rw [he, h, h2]
        dsimp only
        exact rget_rset_self _ _ _
      · rw [applyDefault_rget_ne _ _ _ he, h]
    exact ih (applyDefault r kv) hstep (fun kv2 hm => hL kv2 (List.mem_cons_of_mem _ hm))

/-- For a key whose default is None, `_ensure_final_structure_and_defaults`
leaves any present value unchanged. -/
theorem ensureDefaults_keep_nullDefault (r : RecD) (k : String) (v : PyVal)
    (h : rget r k = some v)
    (hk : ∀ kv ∈ finalSchemaDefaults, kv.1 = k → kv.2 = .VNone) :
    rget (ensureDefaultsOne r) k = some v := by
  by_cases hv : v = .VNone
  · subst hv
    exact foldDefaults_null _ _ _ h hk
  · exact foldDefaults_keep _ _ _ _ h hv

theorem addEtl_rget_self (now : Nat) (r : RecD) :
    rget (addEtlOne now r) "etl_load_timestamp" = some (.VDatetime now) :=
  rget_rset_self _ _ _

theorem addEtl_rget_ne (now : Nat) (r : RecD) (k : String)
    (h : "etl_load_timestamp" ≠ k) : rget (addEtlOne now r) k = rget r k :=
  rget_rset_ne _ _ _ _ h

theorem normalizeRecord_ok (now : Nat) (raw out : RecD)
    (h : normalizeRecord now raw = .ok out) :
    ∃ r, convertNumericOne (normalizeTextOne (renameOne raw)) = .ok r ∧
      out = addEtlOne now (ensureDefaultsOne (convertDatesOne r)) := by
  unfold normalizeRecord at h
  cases hc : convertNumericOne (normalizeTextOne (renameOne raw)) with
  | error e => rw [hc] at h; simp at h
  | ok r =>
    rw [hc] at h
    dsimp only at h
    injection h with h2
    exact ⟨r, rfl, h2.symm⟩

/-! ## Field plumbing through `_rename_and_select_fields` -/

theorem renameOne_rget_pid (raw : RecD) :
    rget (renameOne raw) "product_id" = some (pidOf raw) := rfl

theorem renameOne_rget_price (raw : RecD) :
    rget (renameOne raw) "price_original_str" = some ((rget raw "Preço").getD .VNone) := rfl

theorem renameOne_rget_ship (raw : RecD) :
    rget (renameOne raw) "shipping_cost_original_str" =
      some ((rget raw "Frete").getD .VNone) := rfl

theorem renameOne_rget_date (raw : RecD) :
    rget (renameOne raw) "purchase_date_str" =
      some ((rget raw "Data da Compra").getD .VNone) := rfl

theorem renameOne_keys (raw : RecD) :
    recKeys (renameOne raw) =
      "product_id" :: fieldMap.map Prod.snd := by
  unfold renameOne recKeys
  rw [List.map_cons, List.map_map]
  rfl

/-! ## Batch lemmas -/

theorem mapE_map {α β γ : Type} (g : α → β) (f : β → Except PyErr γ) (l : List α) :
    mapE f (l.map g) = mapE (fun a => f (g a)) l := by
  induction l with
  | nil => rfl
  | cons a l ih => simp only [List.map_cons, mapE, ih]

theorem mapE_map_post {α β γ : Type} (f : α → Except PyErr β) (g : β → γ) (l : List α) :
    (match mapE f l with
     | .ok out => .ok (out.map g)
     | .error e => .error e) =
      mapE (fun a => match f a with
        | .ok b => .ok (g b)
        | .error e => .error e) l := by
  induction l with
  | nil => rfl
  | cons a l ih =>
    simp only [mapE]
    cases f a with
    | error e => rfl
    | ok b =>
      dsimp only
      rw [← ih]
      cases mapE f l with
      | error e => rfl
      | ok out => rfl

theorem mapE_ok_length {α β : Type} (f : α → Except PyErr β) (l : List α)
    (out : List β) (h : mapE f l = .ok out) : out.length = l.length := by
  induction l generalizing out with
  | nil =>
    simp only [mapE] at h
    injection h with h2
    rw [← h2]
    rfl
  | cons a l ih =>
    simp only [mapE] at h
    cases hf : f a with
    | error e => rw [hf] at h; simp at h
    | ok b =>
      rw [hf] at h
      dsimp only at h
      cases hl : mapE f l with
      | error e => rw [hl] at h; simp at h
      | ok bs =>
        rw [hl] at h
        dsimp only at h
        injection h with h2
        rw [← h2]
        simp [ih bs hl]

theorem mapE_ok_get {α β : Type} (f : α → Except PyErr β) (l : List α)
    (out : List β) (h : mapE f l = .ok out) (i : Nat) (hi : i < l.length)
    (ho : i < out.length) : f (l.get ⟨i, hi⟩) = .ok (out.get ⟨i, ho⟩) := by
  induction l generalizing out i with
  | nil => exact absurd hi (by simp)
  | cons a l ih =>
    simp only [mapE] at h
    cases hf : f a with
    | error e => rw [hf] at h; simp at h
    | ok b =>
      rw [hf] at h
      dsimp only at h
      cases hl : mapE f l with
      | error e => rw [hl] at h; simp at h
      | ok bs =>
        rw [hl] at h
        dsimp only at h
        injection h with h2
        subst h2
        cases i with
        | zero => exact hf
        | succ j =>
          have hi2 : j < l.length := Nat.lt_of_succ_lt_succ hi
          have ho2 : j < bs.length := Nat.lt_of_succ_lt_succ ho
          simpa using ih bs hl j hi2 ho2

theorem mapE_ok_mem {α β : Type} (f : α → Except PyErr β) (l : List α)
    (out : List β) (h : mapE f l = .ok out) (b : β) (hb : b ∈ out) :
    ∃ a, a ∈ l ∧ f a = .ok b := by
  induction l generalizing out with
  | nil =>
    simp only [mapE] at h
    injection h with h2
    rw [← h2] at hb
    exact absurd hb (by simp)
  | cons a l ih =>
    simp only [mapE] at h
    cases hf : f a with
    | error e => rw [hf] at h; simp at h
    | ok b2 =>
      rw [hf] at h
      dsimp only at h
      cases hl : mapE f l with
      | error e => rw [hl] at h; simp at h
      | ok bs =>
        rw [hl] at h
        dsimp only at h
        injection h with h2
        subst h2
        rcases List.mem_cons.mp hb with rfl | hb2
        · exact ⟨a, List.mem_cons_self _ _, hf⟩
        · obtain ⟨a2, ha2, hfa2⟩ := ih bs hl hb2
          exact ⟨a2, List.mem_cons_of_mem _ ha2, hfa2⟩

/-- The last three per-record passes of `transform_data`, fused. -/
theorem stages_eq (now : Nat) (l : List RecD) :
    (match mapE convertNumericOne ((l.map renameOne).map normalizeTextOne) with
     | .error e => .error e
     | .ok l3 => .ok (((l3.map convertDatesOne).map ensureDefaultsOne).map (addEtlOne now))) =
      mapE (normalizeRecord now) l := by
  induction l with
  | nil => rfl
  | cons a l ih =>
    simp only [List.map_cons, mapE]
    cases hc : convertNumericOne (normalizeTextOne (renameOne a)) with
    | error e =>
      have hnr : normalizeRecord now a = .error e := by
        unfold normalizeRecord
        rw [hc]
      rw [hnr]
    | ok b =>
      have hnr : normalizeRecord now a =
          .ok (addEtlOne now (ensureDefaultsOne (convertDatesOne b))) := by
        unfold normalizeRecord
        rw [hc]
      rw [hnr]
      dsimp only
      cases hl : mapE convertNumericOne ((l.map renameOne).map normalizeTextOne) with
      | error e =>
        rw [hl] at ih
        dsimp only at ih ⊢
        rw [← ih]
      | ok bs =>
        rw [hl] at ih
        dsimp only at ih ⊢
        rw [← ih]
        simp only [List.map_cons]

/-- The function `transform_data` is exactly the per-record normalization mapped over
the batch (empty batches short-circuit to []). -/
theorem transform_data_eq (now : Nat) (raws : List RecD) :
    transform_data now raws =
      if raws.isEmpty then .ok [] else mapE (normalizeRecord now) raws := by
  unfold transform_data
  by_cases he : raws.isEmpty
  · rw [if_pos he, if_pos he]
  · rw [if_neg he, if_neg he]
    exact stages_eq now raws

/-! ## Claims C3, C4, C5, C6, C8, C9 -/

/-- C3: the per-field coercion steps of record normalization are claimed
to handle every exception branch locally, so that normalization never
raises.  The code catches only `(ValueError, TypeError)`, but
`int(float("inf") * 100)` raises OverflowError, which escapes: a raw
record whose price field is the string "inf" aborts the whole
`transform_data` call.  This theorem evaluates the embedded pipeline at
that failing input. -/
theorem claim_C3_overflow_escapes :
    transform_data 0 [[("Preço", PyVal.VStr "inf")]] = .error .overflowError ∧
    transform_data 0 [[("Preço", PyVal.VStr "1e400")]] = .error .overflowError ∧
    transform_data 0 [[("Frete", PyVal.VStr (String.mk (List.replicate 400 '9')))]] =
      .error .overflowError := by
  exact ⟨rfl, rfl, rfl⟩

/-- C4: the transactional exit of `PostgresManager.__exit__` commits when
the body succeeded, rolls back when an exception is pending, attempts one
best-effort final rollback when the commit (or rollback) itself fails,
and releases cursor and connection on every such path. -/
theorem claim_C4_exit_discipline (exc : Bool) (beh : ConnBehavior) :
    (exc = false → beh.commitFails = false →
      (pgExit true exc beh).1 =
        [(.commit, true), (.closeCursor, true), (.closeConn, true)]) ∧
    (exc = false → beh.commitFails = true →
      (pgExit true exc beh).1 =
        [(.commit, false), (.rollbackFinal, !beh.finalRollbackFails),
         (.closeCursor, true), (.closeConn, true)]) ∧
    (exc = true → beh.rollbackFails = true →
      (pgExit true exc beh).1 =
        [(.rollback, false), (.rollbackFinal, !beh.finalRollbackFails),
         (.closeCursor, true), (.closeConn, true)]) ∧
    (exc = true → (pgExit true exc beh).1.head? = some (.rollback, !beh.rollbackFails) ∧
      ∀ ab ∈ (pgExit true exc beh).1, ab.1 ≠ DbAct.commit) ∧
    ((DbAct.closeCursor, true) ∈ (pgExit true exc beh).1 ∧
      (DbAct.closeConn, true) ∈ (pgExit true exc beh).1) := by
  obtain ⟨b1, b2, b3⟩ := beh
  cases exc <;> cases b1 <;> cases b2 <;> cases b3 <;>
    exact ⟨by decide, by decide, by decide, by decide, by decide⟩

/-- Witness for C4 at a concrete behavior (commit fails, final rollback
fails): the trace is commit, final rollback, then the two releases. -/
theorem claim_C4_witness :
    (pgExit true false ⟨true, false, true⟩).1 =
      [(.commit, false), (.rollbackFinal, false),
       (.closeCursor, true), (.closeConn, true)] :=
  (claim_C4_exit_discipline false ⟨true, false, true⟩).2.1 rfl rfl

/-- C9: `__exit__` returns False on every path — including the path where
the connection was never opened, and the path where commit and the final
rollback both fail — so the body's exception always propagates, and when
the connection was open it is released (cursor then connection last). -/
theorem claim_C9_never_suppresses (connOpen exc : Bool) (beh : ConnBehavior) :
    (pgExit connOpen exc beh).2 = false ∧
    (connOpen = true →
      ((pgExit connOpen exc beh).1.reverse.take 2) =
        [(.closeConn, true), (.closeCursor, true)]) := by
  obtain ⟨b1, b2, b3⟩ := beh
  cases connOpen <;> cases exc <;> cases b1 <;> cases b2 <;> cases b3 <;> decide

/-- Witness for C9 on the double-failure path (exception pending, rollback
fails, final rollback fails): still not suppressed, still released. -/
theorem claim_C9_witness :
    (pgExit true true ⟨false, true, true⟩).2 = false ∧
    ((pgExit true true ⟨false, true, true⟩).1.reverse.take 2) =
      [(.closeConn, true), (.closeCursor, true)] :=
  ⟨(claim_C9_never_suppresses true true ⟨false, true, true⟩).1,
   (claim_C9_never_suppresses true true ⟨false, true, true⟩).2 rfl⟩

/-- C8: the staging bulk load turns each record into one positional tuple
by looking up each column name (a missing key contributes None rather
than raising), and an empty record list is a successful no-op that issues
no insert statement. -/
theorem claim_C8_bulk_load (table : String) (data : List RecD) (cols : List String) :
    (load_data_to_staging true table [] cols = .noop) ∧
    (data ≠ [] →
      load_data_to_staging true table data cols =
        .inserted table cols (data.map (rowOf cols))) ∧
    (∀ item : RecD, (rowOf cols item).length = cols.length) ∧
    (∀ item : RecD, ∀ i (hi : i < cols.length) (hr : i < (rowOf cols item).length),
      (cols.get ⟨i, hi⟩) ∉ recKeys item →
        (rowOf cols item).get ⟨i, hr⟩ = .VNone) := by
  refine ⟨rfl, ?_, ?_, ?_⟩
  · intro hne
    unfold load_data_to_staging
    rw [if_neg (by simp), if_neg (by simpa using hne)]
  · intro item
    simp [rowOf]
  · intro item i hi hr hmem
    have hnone : rget item (cols.get ⟨i, hi⟩) = none := by
      cases hg : rget item (cols.get ⟨i, hi⟩) with
      | none => rfl
      | some v => exact absurd (rget_mem _ _ _ hg) hmem
    simp only [rowOf, List.get_eq_getElem, List.getElem_map]
    rw [List.get_eq_getElem] at hnone
    rw [hnone]
    rfl

/-- Witness for C8: a two-column load where the record lacks the second
column. -/
theorem claim_C8_witness :
    load_data_to_staging true "staging_products"
        [[("product_id", PyVal.VStr "7")]] ["product_id", "price_cents"] =
      .inserted "staging_products" ["product_id", "price_cents"]
        [[PyVal.VStr "7", PyVal.VNone]] :=
  ((claim_C8_bulk_load "staging_products" [[("product_id", PyVal.VStr "7")]]
      ["product_id", "price_cents"]).2.1 (by decide)).trans (by decide)

/-- A concrete raw record (the spec's sample scenario) and its normalized
form, used by the witnesses below. -/
def sampleRaw : RecD :=
  [("id", .VStr ""), ("Produto", .VStr " Mouse "), ("Preço", .VStr "49.9"),
   ("Frete", .VStr "R$ 7,50 frete"), ("Data da Compra", .VStr "05/03/2024")]

def sampleOut : RecD :=
  [("product_id", .VNone),
   ("product_name", .VStr "mouse"),
   ("category_name", .VStr "outros"),
   ("seller_name", .VStr "vendedor desconhecido"),
   ("purchase_location_code", .VStr "n/a"),
   ("payment_type", .VStr "não especificado"),
   ("price_cents", .VInt 4990),
   ("shipping_cost_cents", .VInt 700),
   ("purchase_rating", .VNone),
   ("installments_quantity", .VNone),
   ("latitude", .VNone),
   ("longitude", .VNone),
   ("purchase_date", .VDate 2024 3 5),
   ("etl_load_timestamp", .VDatetime 7)]

/-- C5: batch transformation is order-preserving: the empty batch maps to
[] without error, and whenever the batch call returns, the output has the
input's length and output[i] is exactly the normalization of input[i]. -/
theorem claim_C5_order_preserving (now : Nat) (raws out : List RecD) :
    transform_data now [] = .ok [] ∧
    (transform_data now raws = .ok out →
      out.length = raws.length ∧
      ∀ i (hi : i < raws.length) (ho : i < out.length),
        normalizeRecord now (raws.get ⟨i, hi⟩) = .ok (out.get ⟨i, ho⟩)) := by
  refine ⟨rfl, fun h => ?_⟩
  rw [transform_data_eq] at h
  by_cases he : raws.isEmpty
  · rw [if_pos he] at h
    injection h with h2
    have hnil : raws = [] := by
      cases raws with
      | nil => rfl
      | cons a l => simp [List.isEmpty] at he
    subst hnil
    rw [← h2]
    exact ⟨rfl, fun i hi => absurd hi (by simp)⟩
  · rw [if_neg he] at h
    exact ⟨mapE_ok_length _ _ _ h, fun i hi ho => mapE_ok_get _ _ _ h i hi ho⟩

/-- Witness for C5 on the sample record. -/
theorem claim_C5_witness :
    normalizeRecord 7 sampleRaw = .ok sampleOut :=
  (((claim_C5_order_preserving 7 [sampleRaw] [sampleOut]).2 (by rfl)).2 0
    (by decide) (by decide))

/-- C6: every record of one transform run carries the identical non-null
batch timestamp `now` in `etl_load_timestamp` (the stamp is applied after
the default-substitution pass, so it is never replaced by a default). -/
theorem claim_C6_batch_timestamp (now : Nat) (raws out : List RecD) (r : RecD)
    (h : transform_data now raws = .ok out) (hr : r ∈ out) :
    rget r "etl_load_timestamp" = some (.VDatetime now) ∧
    PyVal.VDatetime now ≠ PyVal.VNone := by
  refine ⟨?_, by simp⟩
  rw [transform_data_eq] at h
  by_cases he : raws.isEmpty
  · rw [if_pos he] at h
    injection h with h2
    rw [← h2] at hr
    exact absurd hr (by simp)
  · rw [if_neg he] at h
    obtain ⟨raw, _, hraw⟩ := mapE_ok_mem _ _ _ h r hr
    obtain ⟨r2, _, rfl⟩ := normalizeRecord_ok now raw r hraw
    exact addEtl_rget_self now _

/-- Witness for C6 on the sample record. -/
theorem claim_C6_witness :
    rget sampleOut "etl_load_timestamp" = some (.VDatetime 7) :=
  (claim_C6_batch_timestamp 7 [sampleRaw] [sampleOut] sampleOut (by rfl)
    (by simp)).1

/-! ## Non-emptiness of `str()` renderings (for claim C7) -/

theorem natReprL_ne_nil (n : Nat) : natReprL n ≠ [] := by
  unfold natReprL
  by_cases h : n = 0
  · simp [h]
  · rw [if_neg h]
    show natReprAux (n + 1) n ≠ []
    unfold natReprAux
    rw [if_neg h]
    simp

theorem intReprL_ne_nil (i : Int) : intReprL i ≠ [] := by
  unfold intReprL
  by_cases h : i < 0
  · simp [h]
  · rw [if_neg h]
    exact natReprL_ne_nil _

theorem dyadicReprL_ne_nil (dy : Dyadic) : dyadicReprL dy ≠ [] := by
  unfold dyadicReprL
  by_cases h : 0 ≤ dy.e
  · rw [if_pos h]
    simp
  · rw [if_neg h]
    simp

theorem strPy_ne_empty (v : PyVal) (h : v ≠ .VStr "") : strPy v ≠ "" := by
  have hdata : ∀ l : List Char, l ≠ [] → String.mk l ≠ "" := by
    intro l hl hEq
    exact hl (congrArg String.data hEq)
  cases v with
  | VNone => exact (by decide : strPy PyVal.VNone ≠ "")
  | VBool b => cases b <;> decide
  | VInt n => exact hdata _ (intReprL_ne_nil n)
  | VFloat f =>
    cases f with
    | finite dy => exact hdata _ (dyadicReprL_ne_nil dy)
    | inf => exact hdata _ (by decide)
    | neginf => exact hdata _ (by decide)
    | nan => exact hdata _ (by decide)
  | VStr s =>
    intro hEq
    exact h (by rw [show s = "" from hEq])
  | VDate y m d => exact hdata _ (by simp)
  | VDatetime t => exact hdata _ (by simp)

/-- Every default whose key is one of the null-defaulted canonical keys
is None. -/
theorem defaults_null_keys (kv : String × PyVal) (hkv : kv ∈ finalSchemaDefaults)
    (hk : kv.1 ∈ (["product_id", "price_cents", "shipping_cost_cents",
      "purchase_date", "purchase_rating", "installments_quantity", "latitude",
      "longitude", "etl_load_timestamp"] : List String)) : kv.2 = .VNone := by
  simp only [finalSchemaDefaults, List.mem_cons, List.not_mem_nil, or_false] at hkv
  rcases hkv with rfl | rfl | rfl | rfl | rfl | rfl | rfl | rfl | rfl | rfl | rfl | rfl | rfl | rfl
  all_goals first | rfl | (exact absurd hk (by decide))

/-! ## Claim C7: product_id -/

/-- C7: the normalized `product_id` is null exactly when the raw `id`
field is absent, None, or the empty string; any other value is
stringified into a non-empty string.  (`pidOf` is the embedded id logic
of `_rename_and_select_fields`; the theorem shows the field reaches the
output unchanged through all later passes.) -/
theorem claim_C7_product_id (now : Nat) (raw out : RecD)
    (h : normalizeRecord now raw = .ok out) :
    rget out "product_id" = some (pidOf raw) ∧
    ((rget raw "id" = none ∨ rget raw "id" = some .VNone ∨
        rget raw "id" = some (.VStr "")) → pidOf raw = .VNone) ∧
    (∀ v, rget raw "id" = some v → v ≠ .VNone → v ≠ .VStr "" →
      pidOf raw = .VStr (strPy v) ∧ strPy v ≠ "") := by
  obtain ⟨r, hc, rfl⟩ := normalizeRecord_ok now raw out h
  refine ⟨?_, ?_, ?_⟩
  · have h1 : rget (renameOne raw) "product_id" = some (pidOf raw) :=
      renameOne_rget_pid raw
    have h2 : rget (normalizeTextOne (renameOne raw)) "product_id" = some (pidOf raw) := by
      rw [normalizeTextOne_rget_ne _ _ (by decide)]
      exact h1
    have h3 : rget r "product_id" = some (pidOf raw) := by
      have hpres := (convertNumeric_spec _ _ hc).2.2.2.2.2.2
      rw [hpres "product_id" (by decide)]
      exact h2
    have h4 : rget (convertDatesOne r) "product_id" = some (pidOf raw) := by
      rw [convertDates_rget_ne _ _ (by decide) (by decide)]
      exact h3
    have h5 : rget (ensureDefaultsOne (convertDatesOne r)) "product_id" = some (pidOf raw) := by
      apply ensureDefaults_keep_nullDefault _ _ _ h4
      intro kv hkv hk1
      exact defaults_null_keys kv hkv (by rw [hk1]; decide)
    rw [addEtl_rget_ne _ _ _ (by decide)]
    exact h5
  · intro hcase
    unfold pidOf
    rcases hcase with h | h | h <;> rw [h] <;> rfl
  · intro v hv hvn hve
    unfold pidOf
    rw [hv]
    cases v with
    | VNone => exact absurd rfl hvn
    | VStr s =>
      have hs : s ≠ "" := fun hs => hve (by rw [hs])
      dsimp only
      rw [if_neg hs]
      exact ⟨rfl, hs⟩
    | VBool b => exact ⟨rfl, strPy_ne_empty _ hve⟩
    | VInt n => exact ⟨rfl, strPy_ne_empty _ hve⟩
    | VFloat f => exact ⟨rfl, strPy_ne_empty _ hve⟩
    | VDate y m d => exact ⟨rfl, strPy_ne_empty _ hve⟩
    | VDatetime t => exact ⟨rfl, strPy_ne_empty _ hve⟩

/-- Witness for C7: the sample record has an empty `id`, so `product_id`
is null in the normalized output. -/
theorem claim_C7_witness :
    rget sampleOut "product_id" = some PyVal.VNone := by
  have h := claim_C7_product_id 7 sampleRaw sampleOut (by rfl)
  rw [h.1, h.2.1 (Or.inr (Or.inr (by rfl)))]

/-! ## Claim C2: the canonical record shape -/

/-- Key evolution across `_convert_numeric_fields` on the key list the
rename pass produces. -/
theorem convertNumeric_keys (r r6 : RecD) (h : convertNumericOne r = .ok r6)
    (hk : recKeys r =
      ["product_id", "product_name", "category_name", "price_original_str",
       "shipping_cost_original_str", "purchase_date_str", "seller_name",
       "purchase_location_code", "purchase_rating_original", "payment_type",
       "installments_quantity_original", "latitude_original", "longitude_original"]) :
    recKeys r6 =
      ["product_id", "product_name", "category_name", "purchase_date_str",
       "seller_name", "purchase_location_code", "payment_type", "price_cents",
       "shipping_cost_cents", "purchase_rating", "installments_quantity",
       "latitude", "longitude"] := by
  unfold convertNumericOne at h
  cases h1 : popConv "price_original_str" "price_cents" priceConv r with
  | error e => rw [h1] at h; simp at h
  | ok r1 =>
  rw [h1] at h
  dsimp only at h
  cases h2 : popConv "shipping_cost_original_str" "shipping_cost_cents" shipConv r1 with
  | error e => rw [h2] at h; simp at h
  | ok r2 =>
  rw [h2] at h
  dsimp only at h
  cases h3 : popConv "purchase_rating_original" "purchase_rating" intConv r2 with
  | error e => rw [h3] at h; simp at h
  | ok r3 =>
  rw [h3] at h
  dsimp only at h
  cases h4 : popConv "installments_quantity_original" "installments_quantity" intConv r3 with
  | error e => rw [h4] at h; simp at h
  | ok r4 =>
  rw [h4] at h
  dsimp only at h
  cases h5 : popConv "latitude_original" "latitude" geoConv r4 with
  | error e => rw [h5] at h; simp at h
  | ok r5 =>
  rw [h5] at h
  dsimp only at h
  rw [popConv_keys _ _ _ _ _ h, popConv_keys _ _ _ _ _ h5, popConv_keys _ _ _ _ _ h4,
    popConv_keys _ _ _ _ _ h3, popConv_keys _ _ _ _ _ h2, popConv_keys _ _ _ _ _ h1, hk]
  decide

/-- Key evolution of the defaults pass, keys-only. -/
theorem foldDefaults_keys (L : List (String × PyVal)) (r : RecD) :
    recKeys (L.foldl applyDefault r) =
      L.foldl (fun ks kv => if kv.1 ∈ ks then ks else ks ++ [kv.1]) (recKeys r) := by
  induction L generalizing r with
  | nil => rfl
  | cons kv L ih =>
    simp only [List.foldl]
    rw [ih, applyDefault_keys]

/-- C2: every record the normalizer produces has exactly the fourteen
canonical keys — in the fixed order the pipeline constructs them — with
no intermediate key surviving; `finalKeyOrder` contains precisely the
spec's fourteen canonical keys. -/
theorem claim_C2_canonical_shape (now : Nat) (raws out : List RecD) (r : RecD)
    (h : transform_data now raws = .ok out) (hr : r ∈ out) :
    recKeys r = finalKeyOrder ∧
    finalKeyOrder.Perm canonicalKeys ∧
    finalKeyOrder.length = 14 := by
  refine ⟨?_, by decide, by decide⟩
  rw [transform_data_eq] at h
  by_cases he : raws.isEmpty
  · rw [if_pos he] at h
    injection h with h2
    rw [← h2] at hr
    exact absurd hr (by simp)
  · rw [if_neg he] at h
    obtain ⟨raw, _, hraw⟩ := mapE_ok_mem _ _ _ h r hr
    obtain ⟨r2, hc, rfl⟩ := normalizeRecord_ok now raw r hraw
    have k1 : recKeys (normalizeTextOne (renameOne raw)) =
        ["product_id", "product_name", "category_name", "price_original_str",
         "shipping_cost_original_str", "purchase_date_str", "seller_name",
         "purchase_location_code", "purchase_rating_original", "payment_type",
         "installments_quantity_original", "latitude_original", "longitude_original"] := by
      rw [normalizeTextOne_keys, renameOne_keys]
      rfl
    have k2 := convertNumeric_keys _ _ hc k1
    have k3 : recKeys (convertDatesOne r2) =
        ["product_id", "product_name", "category_name", "seller_name",
         "purchase_location_code", "payment_type", "price_cents",
         "shipping_cost_cents", "purchase_rating", "installments_quantity",
         "latitude", "longitude", "purchase_date"] := by
      rw [convertDates_keys, k2]
      decide
    have k4 : recKeys (ensureDefaultsOne (convertDatesOne r2)) =
        ["product_id", "product_name", "category_name", "seller_name",
         "purchase_location_code", "payment_type", "price_cents",
         "shipping_cost_cents", "purchase_rating", "installments_quantity",
         "latitude", "longitude", "purchase_date", "etl_load_timestamp"] := by
      unfold ensureDefaultsOne
      rw [foldDefaults_keys, k3]
      decide
    unfold addEtlOne
    rw [recKeys_rset, k4]
    decide

/-- Witness for C2 on the sample record. -/
theorem claim_C2_witness : recKeys sampleOut = finalKeyOrder :=
  (claim_C2_canonical_shape 7 [sampleRaw] [sampleOut] sampleOut (by rfl)
    (by simp)).1

/-! ## Claim C1: the cents conversion -/

/-- For string-valued price and shipping fields, the normalized cents
fields are exactly the `int(float(.) * 100)` double computation
(`pyCents`), with parse failures degrading to null (shipping first
extracts the first numeric run). -/
theorem cents_pipeline (now : Nat) (raw out : RecD)
    (h : normalizeRecord now raw = .ok out) :
    (∀ s : String, rget raw "Preço" = some (.VStr s) →
      rget out "price_cents" = some (match pyCents (.VStr s) with
        | .ok n => PyVal.VInt n
        | .error e => PyVal.VNone)) ∧
    (∀ s : String, rget raw "Frete" = some (.VStr s) →
      rget out "shipping_cost_cents" = some (match reSearchNum s.data with
        | some ds =>
          (match pyCents (.VStr (String.mk ds)) with
           | .ok n => PyVal.VInt n
           | .error e => PyVal.VNone)
        | none => PyVal.VNone)) := by
  obtain ⟨r, hc, rfl⟩ := normalizeRecord_ok now raw out h
  have hspec := convertNumeric_spec _ _ hc
  constructor
  · intro s hp
    have h1 : rget (normalizeTextOne (renameOne raw)) "price_original_str" =
        some (.VStr s) := by
      rw [normalizeTextOne_rget_ne _ _ (by decide), renameOne_rget_price, hp]
      rfl
    obtain ⟨w, hw, hg⟩ := hspec.1
    rw [h1] at hw
    have hw2 : w = (match pyCents (.VStr s) with
        | .ok n => PyVal.VInt n
        | .error e => PyVal.VNone) := by
      unfold priceConv at hw
      dsimp only at hw
      cases hpc : pyCents (.VStr s) with
      | ok n =>
        rw [hpc] at hw
        dsimp only [catchVT] at hw
        dsimp only
        injection hw with hw
        exact hw.symm
      | error e =>
        rw [hpc] at hw
        cases e with
        | valueError =>
          dsimp only [catchVT] at hw
          dsimp only
          injection hw with hw
          exact hw.symm
        | typeError =>
          dsimp only [catchVT] at hw
          dsimp only
          injection hw with hw
          exact hw.symm
        | overflowError =>
          dsimp only [catchVT] at hw
          simp at hw
    have h4 : rget (convertDatesOne r) "price_cents" = some w := by
      rw [convertDates_rget_ne _ _ (by decide) (by decide)]
      exact hg
    have h5 : rget (ensureDefaultsOne (convertDatesOne r)) "price_cents" = some w := by
      apply ensureDefaults_keep_nullDefault _ _ _ h4
      intro kv hkv hk1
      exact defaults_null_keys kv hkv (by rw [hk1]; decide)
    rw [addEtl_rget_ne _ _ _ (by decide), h5, hw2]
  · intro s hp
    have h1 : rget (normalizeTextOne (renameOne raw)) "shipping_cost_original_str" =
        some (.VStr s) := by
      rw [normalizeTextOne_rget_ne _ _ (by decide), renameOne_rget_ship, hp]
      rfl
    obtain ⟨w, hw, hg⟩ := hspec.2.1
    rw [h1] at hw
    have hw2 : w = (match reSearchNum s.data with
        | some ds =>
          (match pyCents (.VStr (String.mk ds)) with
           | .ok n => PyVal.VInt n
           | .error e => PyVal.VNone)
        | none => PyVal.VNone) := by
      unfold shipConv at hw
      dsimp only [strPy] at hw
      cases hre : reSearchNum s.data with
      | none =>
        rw [hre] at hw
        dsimp only at hw
        dsimp only
        injection hw with hw
        exact hw.symm
      | some ds =>
        rw [hre] at hw
        dsimp only at hw
        dsimp only
        cases hpc : pyCents (.VStr (String.mk ds)) with
        | ok n =>
          rw [hpc] at hw
          dsimp only [catchVT] at hw
          dsimp only
          injection hw with hw
          exact hw.symm
        | error e =>
          rw [hpc] at hw
          cases e with
          | valueError =>
            dsimp only [catchVT] at hw
            dsimp only
            injection hw with hw
            exact hw.symm
          | typeError =>
            dsimp only [catchVT] at hw
            dsimp only
            injection hw with hw
            exact hw.symm
          | overflowError =>
            dsimp only [catchVT] at hw
            simp at hw
    have h4 : rget (convertDatesOne r) "shipping_cost_cents" = some w := by
      rw [convertDates_rget_ne _ _ (by decide) (by decide)]
      exact hg
    have h5 : rget (ensureDefaultsOne (convertDatesOne r)) "shipping_cost_cents" =
        some w := by
      apply ensureDefaults_keep_nullDefault _ _ _ h4
      intro kv hkv hk1
      exact defaults_null_keys kv hkv (by rw [hk1]; decide)
    rw [addEtl_rget_ne _ _ _ (by decide), h5, hw2]

/-- C1 (amended): for a string-valued price field, `price_cents` is
exactly `int(float(s) * 100)` computed in IEEE-754 double arithmetic
(`pyCents`): parse to the nearest double, multiply by 100 with the
product rounded again, truncate toward zero; a string that does not parse
(ValueError) yields null with no error.  Likewise for the shipping field
after extracting the first numeric run. -/
theorem claim_C1_double_cents (now : Nat) (raw out : RecD)
    (h : normalizeRecord now raw = .ok out) :
    (∀ s : String, rget raw "Preço" = some (.VStr s) →
      rget out "price_cents" = some (match pyCents (.VStr s) with
        | .ok n => PyVal.VInt n
        | .error e => PyVal.VNone)) ∧
    (∀ s : String, rget raw "Frete" = some (.VStr s) →
      rget out "shipping_cost_cents" = some (match reSearchNum s.data with
        | some ds =>
          (match pyCents (.VStr (String.mk ds)) with
           | .ok n => PyVal.VInt n
           | .error e => PyVal.VNone)
        | none => PyVal.VNone)) :=
  cents_pipeline now raw out h

/-- Witness for C1 on the sample record: "49.9" gives 4990 cents (here
exact and double agree) and the first numeric run of "R$ 7,50 frete"
gives 700. -/
theorem claim_C1_witness :
    rget sampleOut "price_cents" = some (PyVal.VInt 4990) ∧
    rget sampleOut "shipping_cost_cents" = some (PyVal.VInt 700) := by
  have h := claim_C1_double_cents 7 sampleRaw sampleOut (by rfl)
  constructor
  · rw [h.1 "49.9" (by rfl)]
    rfl
  · rw [h.2 "R$ 7,50 frete" (by rfl)]
    rfl

/-- C1 counterexample: "4.35" parses as the exact decimal 435/100, whose
value times 100 truncated toward zero is 435; the code stores 434
(after two roundings, float("4.35")*100 is just below 435).  So `price_cents`
is not the exact-truncation of the decimal value. -/
theorem claim_C1_counterexample :
    parseDecimalExact "4.35" = some (435, 100) ∧
    specCentsTrunc (435, 100) = 435 ∧
    (match normalizeRecord 0 [("Preço", PyVal.VStr "4.35")] with
     | .ok out => rget out "price_cents"
     | .error e => none) = some (.VInt 434) ∧
    (PyVal.VInt 434 : PyVal) ≠ .VInt 435 := by
  exact ⟨rfl, rfl, rfl, by decide⟩

/-! ## Correctness of the integer log2 and of `roundDouble` on integers -/

theorem log2F_spec (fuel : Nat) : ∀ n, 1 ≤ n → n ≤ fuel →
    2 ^ log2F fuel n ≤ n ∧ n < 2 ^ (log2F fuel n + 1) := by
  induction fuel with
  | zero => intro n h1 h2; omega
  | succ fuel ih =>
    intro n h1 h2
    unfold log2F
    by_cases hle : n ≤ 1
    · rw [if_pos hle]
      constructor
      · simpa using h1
      · have : n = 1 := le_antisymm hle h1
        rw [this]
        norm_num
    · rw [if_neg hle]
      have hrec := ih (n / 2) (by omega) (by omega)
      obtain ⟨ha, hb⟩ := hrec
      have h2d : n / 2 * 2 ≤ n := Nat.div_mul_le_self n 2
      have hp1 : 2 ^ (log2F fuel (n / 2) + 1) = 2 ^ log2F fuel (n / 2) * 2 :=
        pow_succ 2 _
      have hp2 : 2 ^ (log2F fuel (n / 2) + 1 + 1) =
          2 ^ (log2F fuel (n / 2) + 1) * 2 := pow_succ 2 _
      omega

theorem myLog2_spec (n : Nat) (h : 1 ≤ n) :
    2 ^ myLog2 n ≤ n ∧ n < 2 ^ (myLog2 n + 1) :=
  log2F_spec n n h le_rfl

theorem myLog2_unique (n a : Nat) (h1 : 2 ^ a ≤ n) (h2 : n < 2 ^ (a + 1)) :
    myLog2 n = a := by
  have hn : 1 ≤ n := le_trans (Nat.one_le_two_pow) h1
  obtain ⟨b1, b2⟩ := myLog2_spec n hn
  by_contra hne
  rcases Nat.lt_or_ge (myLog2 n) a with hlt | hge
  · have : 2 ^ (myLog2 n + 1) ≤ 2 ^ a := Nat.pow_le_pow_right (by norm_num) hlt
    omega
  · have hgt : a < myLog2 n := lt_of_le_of_ne hge (fun he => hne he.symm)
    have : 2 ^ (a + 1) ≤ 2 ^ myLog2 n := Nat.pow_le_pow_right (by norm_num) hgt
    omega

theorem myLog2_le_of_lt_pow (n a : Nat) (h1 : 1 ≤ n) (h : n < 2 ^ (a + 1)) :
    myLog2 n ≤ a := by
  obtain ⟨b1, _⟩ := myLog2_spec n h1
  by_contra hgt
  have : 2 ^ (a + 1) ≤ 2 ^ myLog2 n := Nat.pow_le_pow_right (by norm_num) (by omega)
  omega

/-- Evaluating `qFloorLog2` on an integer-valued fraction k*d / d gives log2 k. -/
theorem qFloorLog2_cancel (k d : Nat) (hk : 1 ≤ k) (hd : 1 ≤ d) :
    qFloorLog2 (k * d) d = (myLog2 k : Int) := by
  obtain ⟨lk1, lk2⟩ := myLog2_spec k hk
  obtain ⟨ld1, ld2⟩ := myLog2_spec d hd
  have hl : myLog2 (k * d) = myLog2 k + myLog2 d ∨
      myLog2 (k * d) = myLog2 k + myLog2 d + 1 := by
    by_cases hcase : k * d < 2 ^ (myLog2 k + myLog2 d + 1)
    · left
      exact myLog2_unique _ _ (by rw [pow_add]; exact Nat.mul_le_mul lk1 ld1) hcase
    · right
      apply myLog2_unique
      · omega
      · calc k * d < 2 ^ (myLog2 k + 1) * 2 ^ (myLog2 d + 1) :=
            Nat.mul_lt_mul'' lk2 ld2
          _ = 2 ^ (myLog2 k + myLog2 d + 1 + 1) := by rw [← pow_add]; ring_nf
  unfold qFloorLog2
  rcases hl with hl | hl
  · -- c = log2 k ≥ 0; the correction test k*d < d * 2^(log2 k) is false
    have hc : (myLog2 (k * d) : Int) - (myLog2 d : Int) = (myLog2 k : Int) := by
      rw [hl]; push_cast; ring
    rw [hc]
    have htest : ¬ (k * d * 2 ^ (-(myLog2 k : Int)).toNat <
        d * 2 ^ ((myLog2 k : Int)).toNat) := by
      have h1 : (-(myLog2 k : Int)).toNat = 0 := by simp
      have h2 : ((myLog2 k : Int)).toNat = myLog2 k := Int.toNat_natCast _
      rw [h1, h2, pow_zero, mul_one]
      have : d * 2 ^ myLog2 k ≤ d * k := Nat.mul_le_mul_left d lk1
      have hcomm : k * d = d * k := Nat.mul_comm k d
      omega
    rw [if_neg htest]
  · -- c = log2 k + 1; the correction test holds, result c - 1
    have hc : (myLog2 (k * d) : Int) - (myLog2 d : Int) = (myLog2 k : Int) + 1 := by
      rw [hl]; push_cast; ring
    rw [hc]
    have htest : k * d * 2 ^ (-((myLog2 k : Int) + 1)).toNat <
        d * 2 ^ (((myLog2 k : Int) + 1)).toNat := by
      have h1 : (-((myLog2 k : Int) + 1)).toNat = 0 := by omega
      have h2 : (((myLog2 k : Int) + 1)).toNat = myLog2 k + 1 := by
        rw [show ((myLog2 k : Int) + 1) = ((myLog2 k + 1 : Nat) : Int) by push_cast; ring,
          Int.toNat_natCast]
      rw [h1, h2, pow_zero, mul_one]
      have hlt : k * d < 2 ^ (myLog2 k + 1) * d := by
        have hmm := Nat.mul_le_mul_right d (show k + 1 ≤ 2 ^ (myLog2 k + 1) by omega)
        rw [Nat.succ_mul] at hmm
        omega
      have hcomm := Nat.mul_comm d (2 ^ (myLog2 k + 1))
      omega
    rw [if_pos htest]
    omega

theorem roundNearEven_mul (a d : Nat) (hd : 0 < d) : roundNearEven (a * d) d = a := by
  unfold roundNearEven
  have h1 : a * d / d = a := Nat.mul_div_cancel a hd
  have h2 : a * d % d = 0 := Nat.mul_mod_left a d
  rw [h1, h2]
  simp [hd]

/-- Rounding is exact on integer values below 2^53: the fraction
(k*d)/d rounds to the double k * 2^(52 - log2 k) * 2^(log2 k - 52). -/
theorem roundDouble_natMul (k d : Nat) (hd : 0 < d) (hk : 0 < k)
    (hk53 : k < 2 ^ 53) :
    roundDouble ⟨(k : Int) * d, d⟩ =
      .finite ⟨(k : Int) * 2 ^ (52 - myLog2 k), (myLog2 k : Int) - 52⟩ := by
  have hlk := myLog2_spec k hk
  have hlk52 : myLog2 k ≤ 52 := myLog2_le_of_lt_pow k 52 hk (by exact_mod_cast hk53)
  have hn0 : ((k : Int) * d) ≠ 0 := by
    have : (0 : Int) < (k : Int) * d := by positivity
    omega
  unfold roundDouble
  rw [if_neg hn0]
  dsimp only
  have han : ((k : Int) * d).natAbs = k * d := by
    rw [Int.natAbs_mul]
    simp
  rw [han]
  rw [qFloorLog2_cancel k d hk hd]
  have hmax : max ((myLog2 k : Int) - 52) (-1074) = (myLog2 k : Int) - 52 := by
    omega
  rw [hmax]
  have ht1 : (-((myLog2 k : Int) - 52)).toNat = 52 - myLog2 k := by omega
  have ht2 : ((myLog2 k : Int) - 52).toNat = 0 := by omega
  rw [ht1, ht2, pow_zero, mul_one]
  have hnum : k * d * 2 ^ (52 - myLog2 k) = k * 2 ^ (52 - myLog2 k) * d := by ring
  rw [hnum, roundNearEven_mul _ _ hd]
  have hm53 : k * 2 ^ (52 - myLog2 k) < 2 ^ 53 := by
    have h1 : k * 2 ^ (52 - myLog2 k) <
        2 ^ (myLog2 k + 1) * 2 ^ (52 - myLog2 k) :=
      Nat.mul_lt_mul_of_lt_of_le hlk.2 le_rfl (by positivity)
    have h2 : 2 ^ (myLog2 k + 1) * 2 ^ (52 - myLog2 k) = 2 ^ 53 := by
      rw [← pow_add]
      congr 1
      omega
    omega
  have hov : ¬ (2 ^ ((1024 : Int) - ((myLog2 k : Int) - 52)).toNat ≤
      k * 2 ^ (52 - myLog2 k)) := by
    have he : ((1024 : Int) - ((myLog2 k : Int) - 52)).toNat = 1076 - myLog2 k := by
      omega
    rw [he]
    have h53 : (2 : Nat) ^ 53 ≤ 2 ^ (1076 - myLog2 k) :=
      Nat.pow_le_pow_right (by norm_num) (by omega)
    omega
  rw [if_neg hov]
  have hsign : ¬ ((k : Int) * d < 0) := by
    have h0 : (0 : Int) ≤ (k : Int) * d := by positivity
    omega
  rw [if_neg hsign]
  congr 1
  push_cast
  ring

/-- Truncating the dyadic a * 2^j * 2^(-j) toward zero recovers a. -/
theorem dyTrunc_scaled (a j : Nat) :
    dyTrunc ⟨(a : Int) * 2 ^ j, -(j : Int)⟩ = (a : Int) := by
  unfold dyTrunc
  by_cases hj : j = 0
  · subst hj
    rw [if_pos (by dsimp only; omega)]
    simp
  · rw [if_neg (by dsimp only; omega)]
    dsimp only
    have h1 : ((a : Int) * 2 ^ j).natAbs = a * 2 ^ j := by
      rw [Int.natAbs_mul]
      simp [Int.natAbs_pow]
    rw [h1]
    have h2 : (-(-(j : Int))).toNat = j := by omega
    rw [h2]
    have h3 : a * 2 ^ j / 2 ^ j = a := Nat.mul_div_cancel a (by positivity)
    rw [h3]
    have hsign : ¬ ((a : Int) * 2 ^ j < 0) := by
      have h0 : (0 : Int) ≤ (a : Int) * 2 ^ j := by positivity
      omega
    rw [if_neg hsign]

theorem roundDouble_of_eq (x : QRep) (k : Nat) (hk : 0 < k) (h53 : k < 2 ^ 53)
    (hd : 0 < x.d) (hval : x.n = (k : Int) * x.d) :
    roundDouble x =
      .finite ⟨(k : Int) * 2 ^ (52 - myLog2 k), (myLog2 k : Int) - 52⟩ := by
  obtain ⟨n, d⟩ := x
  dsimp only at hval hd
  subst hval
  exact roundDouble_natMul k d hd hk h53

/-- Multiplying the exact double of a (0 < a, 100a < 2^53) by 100 gives
the exact double of 100a. -/
theorem mulF100_intScaled (a j : Nat) (ha : 0 < a) (h53 : 100 * a < 2 ^ 53) :
    mulF100 (.finite ⟨(a : Int) * 2 ^ j, -(j : Int)⟩) =
      .finite ⟨((100 * a : Nat) : Int) * 2 ^ (52 - myLog2 (100 * a)),
               (myLog2 (100 * a) : Int) - 52⟩ := by
  unfold mulF100 dyMul100
  dsimp only
  by_cases hj : j = 0
  · subst hj
    rw [if_pos (by omega)]
    apply roundDouble_of_eq
    · omega
    · exact h53
    · dsimp only
      omega
    · dsimp only
      push_cast
      ring
  · rw [if_neg (by omega)]
    apply roundDouble_of_eq
    · omega
    · exact h53
    · dsimp only
      have : (-(-(j : Int))).toNat = j := by omega
      rw [this]
      positivity
    · dsimp only
      have : (-(-(j : Int))).toNat = j := by omega
      rw [this]
      push_cast
      ring

/-! ## The float parser on pure digit strings -/

theorem isWSChar_digit (c : Char) (h : c.isDigit = true) : isWSChar c = false := by
  have h1 : ¬ (c = ' ') := fun he => absurd (he ▸ h) (by decide)
  have h2 : ¬ (c = '\t') := fun he => absurd (he ▸ h) (by decide)
  have h3 : ¬ (c = '\n') := fun he => absurd (he ▸ h) (by decide)
  have h4 : ¬ (c = '\r') := fun he => absurd (he ▸ h) (by decide)
  have h5 : ¬ (c = '\x0b') := fun he => absurd (he ▸ h) (by decide)
  have h6 : ¬ (c = '\x0c') := fun he => absurd (he ▸ h) (by decide)
  simp [isWSChar, h1, h2, h3, h4, h5, h6]

theorem dropWhile_eq_self_of (p : Char → Bool) (l : List Char)
    (h : ∀ c ∈ l, p c = false) : l.dropWhile p = l := by
  cases l with
  | nil => rfl
  | cons c cs =>
    rw [List.dropWhile_cons, if_neg (by rw [h c (List.mem_cons_self _ _)]; simp)]

theorem stripWSList_eq_self (l : List Char) (h : ∀ c ∈ l, isWSChar c = false) :
    stripWSList l = l := by
  unfold stripWSList
  rw [dropWhile_eq_self_of _ _ h,
    dropWhile_eq_self_of _ _ (fun c hc => h c (List.mem_reverse.mp hc)),
    List.reverse_reverse]

theorem parseSignList_digit (c : Char) (cs : List Char) (h : c.isDigit = true) :
    parseSignList (c :: cs) = (false, c :: cs) := by
  unfold parseSignList
  dsimp only
  rw [if_neg (fun he => absurd (he ▸ h) (by decide)),
    if_neg (fun he => absurd (he ▸ h) (by decide))]

theorem digitsUndAux_all (l : List Char) (h : ∀ c ∈ l, c.isDigit) :
    digitsUndAux l = (l, []) := by
  induction l with
  | nil => rfl
  | cons c cs ih =>
    unfold digitsUndAux
    rw [if_pos (h c (List.mem_cons_self _ _))]
    dsimp only
    rw [ih (fun c2 hc2 => h c2 (List.mem_cons_of_mem _ hc2))]

theorem digitsUnd_all (ds : List Char) (hne : ds ≠ []) (h : ∀ c ∈ ds, c.isDigit) :
    digitsUnd ds = some (ds, []) := by
  cases ds with
  | nil => exact absurd rfl hne
  | cons c cs =>
    unfold digitsUnd
    dsimp only
    rw [if_pos (h c (List.mem_cons_self _ _)), digitsUndAux_all _ h]

theorem parseDecCore_digits (ds : List Char) (hne : ds ≠ [])
    (h : ∀ c ∈ ds, c.isDigit) : parseDecCore ds = some (ds, [], 0) := by
  unfold parseDecCore
  rw [digitsUnd_all ds hne h]

/-- Parsing `float()` of a pure digit string is the rounding of its value. -/
theorem pyFloatOfStr_digits (ds : List Char) (hne : ds ≠ [])
    (h : ∀ c ∈ ds, c.isDigit) :
    pyFloatOfStr (String.mk ds) =
      some (roundDouble ⟨(natOfDigits ds : Int), 1⟩) := by
  unfold pyFloatOfStr
  dsimp only
  rw [stripWSList_eq_self ds (fun c hc => isWSChar_digit c (h c hc))]
  cases ds with
  | nil => exact absurd rfl hne
  | cons c cs =>
  rw [parseSignList_digit c cs (h c (List.mem_cons_self _ _))]
  dsimp only
  rw [parseDecCore_digits _ hne h]
  dsimp only
  rw [if_neg (by simp)]
  unfold decValue
  dsimp only
  rw [if_pos (by norm_num)]
  norm_num

/-- Computing `int(float(ds) * 100)` on a pure digit string with value below 2^46
is exact: it equals the value times 100. -/
theorem pyCents_digits (ds : List Char) (hne : ds ≠ [])
    (hdig : ∀ c ∈ ds, c.isDigit) (hb : natOfDigits ds < 2 ^ 46) :
    pyCents (.VStr (String.mk ds)) = .ok ((natOfDigits ds : Int) * 100) := by
  unfold pyCents pyFloatOfVal
  dsimp only
  rw [pyFloatOfStr_digits ds hne hdig]
  dsimp only
  by_cases h0 : natOfDigits ds = 0
  · rw [h0]
    rfl
  · have hgt : 0 < natOfDigits ds := Nat.pos_of_ne_zero h0
    have h53 : natOfDigits ds < 2 ^ 53 := lt_trans hb (by norm_num)
    rw [roundDouble_of_eq ⟨(natOfDigits ds : Int), 1⟩ (natOfDigits ds) hgt h53
      (by norm_num) (by dsimp only; push_cast; ring)]
    have hlk52 : myLog2 (natOfDigits ds) ≤ 52 :=
      myLog2_le_of_lt_pow _ 52 hgt (by exact_mod_cast h53)
    have hj : (myLog2 (natOfDigits ds) : Int) - 52 =
        -(((52 - myLog2 (natOfDigits ds) : Nat)) : Int) := by omega
    rw [hj]
    have h100 : 100 * natOfDigits ds < 2 ^ 53 := by
      have h1 : 100 * natOfDigits ds < 100 * 2 ^ 46 := by omega
      have h2 : (100 : Nat) * 2 ^ 46 < 2 ^ 53 := by norm_num
      omega
    rw [mulF100_intScaled _ _ hgt h100]
    unfold pyIntOfFloat
    dsimp only
    have hlk2 : myLog2 (100 * natOfDigits ds) ≤ 52 :=
      myLog2_le_of_lt_pow _ 52 (by omega) (by exact_mod_cast h100)
    have hj2 : (myLog2 (100 * natOfDigits ds) : Int) - 52 =
        -(((52 - myLog2 (100 * natOfDigits ds) : Nat)) : Int) := by omega
    rw [hj2, dyTrunc_scaled]
    congr 1
    push_cast
    ring

/-! ## The shipping regex on comma-decimal strings -/

theorem spanDigits_cons (c : Char) (cs : List Char) :
    spanDigits (c :: cs) =
      if c.isDigit then (c :: (spanDigits cs).1, (spanDigits cs).2)
      else ([], c :: cs) := rfl

theorem matchNumAt_cons (c : Char) (cs : List Char) :
    matchNumAt (c :: cs) =
      (if c.isDigit then
        (match (spanDigits (c :: cs)).2 with
         | c2 :: r2 =>
           if c2 = '.' then
             some ((spanDigits (c :: cs)).1 ++ '.' :: (spanDigits r2).1)
           else some (spanDigits (c :: cs)).1
         | [] => some (spanDigits (c :: cs)).1)
      else if c = '.' then
        (match cs with
         | c2 :: _ => if c2.isDigit then some ('.' :: (spanDigits cs).1) else none
         | [] => none)
      else none) := rfl

theorem reSearchNum_cons (c : Char) (cs : List Char) :
    reSearchNum (c :: cs) =
      (match matchNumAt (c :: cs) with
       | some m => some m
       | none => reSearchNum cs) := rfl

theorem spanDigits_append (ds rest : List Char) (h : ∀ c ∈ ds, c.isDigit)
    (hr : ∀ c cs, rest = c :: cs → c.isDigit = false) :
    spanDigits (ds ++ rest) = (ds, rest) := by
  induction ds with
  | nil =>
    cases rest with
    | nil => rfl
    | cons c cs =>
      rw [List.nil_append, spanDigits_cons, if_neg (by rw [hr c cs rfl]; simp)]
  | cons c cs ih =>
    rw [List.cons_append, spanDigits_cons,
      if_pos (h c (List.mem_cons_self _ _)),
      ih (fun c2 hc2 => h c2 (List.mem_cons_of_mem _ hc2))]

theorem matchNumAt_digits_comma (ds suf : List Char) (hne : ds ≠ [])
    (hd : ∀ c ∈ ds, c.isDigit) :
    matchNumAt (ds ++ ',' :: suf) = some ds := by
  cases ds with
  | nil => exact absurd rfl hne
  | cons c cs =>
    rw [List.cons_append, matchNumAt_cons,
      if_pos (hd c (List.mem_cons_self _ _)),
      show c :: (cs ++ ',' :: suf) = (c :: cs) ++ ',' :: suf from rfl,
      spanDigits_append (c :: cs) (',' :: suf) hd
        (fun c2 cs2 he => by injection he with h1 h2; rw [← h1]; decide)]
    dsimp only
    rw [if_neg (by decide)]

theorem matchNumAt_none (c : Char) (cs : List Char) (h1 : c.isDigit = false)
    (h2 : ¬ (c = '.')) : matchNumAt (c :: cs) = none := by
  rw [matchNumAt_cons, if_neg (by rw [h1]; simp), if_neg h2]

theorem reSearchNum_skip (pre l : List Char)
    (h : ∀ c ∈ pre, c.isDigit = false ∧ ¬ (c = '.')) :
    reSearchNum (pre ++ l) = reSearchNum l := by
  induction pre with
  | nil => rfl
  | cons c pre ih =>
    rw [List.cons_append, reSearchNum_cons,
      show c :: (pre ++ l) = c :: (pre ++ l) from rfl,
      matchNumAt_none c (pre ++ l) (h c (List.mem_cons_self _ _)).1
        (h c (List.mem_cons_self _ _)).2]
    exact ih (fun c2 hc2 => h c2 (List.mem_cons_of_mem _ hc2))

theorem reSearchNum_digits_comma (ds suf : List Char) (hne : ds ≠ [])
    (hd : ∀ c ∈ ds, c.isDigit) :
    reSearchNum (ds ++ ',' :: suf) = some ds := by
  cases ds with
  | nil => exact absurd rfl hne
  | cons c cs =>
    rw [List.cons_append, reSearchNum_cons, ← List.cons_append,
      matchNumAt_digits_comma (c :: cs) suf hne hd]

/-! ## Claim C10: comma-decimal shipping strings -/

/-- C10 (amended): for a shipping string of the form
`prefix ++ digits ++ ',' ++ rest` — the prefix free of digits and dots,
the digit run's value below 2^46 so that double arithmetic is exact —
`shipping_cost_cents` is the integer part times 100: the comma ends the
numeric run, so the fractional part is dropped entirely (for
"R$ 7,50" this gives 700, not 750). -/
theorem claim_C10_comma_ends_run (now : Nat) (raw out : RecD)
    (pre ds suf : List Char)
    (hpre : ∀ c ∈ pre, c.isDigit = false ∧ ¬ (c = '.'))
    (hne : ds ≠ []) (hd : ∀ c ∈ ds, c.isDigit)
    (hb : natOfDigits ds < 2 ^ 46)
    (hket : rget raw "Frete" = some (.VStr (String.mk (pre ++ ds ++ ',' :: suf))))
    (h : normalizeRecord now raw = .ok out) :
    rget out "shipping_cost_cents" =
      some (.VInt ((natOfDigits ds : Int) * 100)) := by
  rw [(cents_pipeline now raw out h).2 (String.mk (pre ++ ds ++ ',' :: suf)) hket]
  rw [show (String.mk (pre ++ ds ++ ',' :: suf)).data =
      pre ++ (ds ++ ',' :: suf) from by rw [List.append_assoc]]
  rw [reSearchNum_skip pre _ hpre, reSearchNum_digits_comma ds suf hne hd]
  dsimp only
  rw [pyCents_digits ds hne hd hb]

/-- Witness for C10: the sample record's shipping string
"R$ 7,50 frete" yields 700 cents. -/
theorem claim_C10_witness :
    rget sampleOut "shipping_cost_cents" = some (.VInt 700) := by
  have h := claim_C10_comma_ends_run 7 sampleRaw sampleOut
    ['R', '$', ' '] ['7'] ['5', '0', ' ', 'f', 'r', 'e', 't', 'e']
    (by decide) (by decide) (by decide) (by decide) (by rfl) (by rfl)
  exact h.trans (by decide)

/-- C10 counterexample: the claim as stated fails for large integer
parts: for the shipping string "100000000000000001,5" the code stores
10^19 cents (the 18-digit integer rounds to 10^17 as a double), not
100000000000000001 * 100. -/
theorem claim_C10_counterexample :
    (match normalizeRecord 0 [("Frete", PyVal.VStr "100000000000000001,5")] with
     | .ok out => rget out "shipping_cost_cents"
     | .error e => none) = some (.VInt 10000000000000000000) ∧
    (100000000000000001 : Int) * 100 ≠ 10000000000000000000 :=
  ⟨rfl, by decide⟩
